import Mathlib

/-!
Verification development for the wirepig network mock server.

The definitions below are a shallow embedding of the JavaScript sources:

* `lib.js` — runtime type checks, `safeInvoke`, the comparator `compare`,
  and the response resolvers (`toBuffer`, `toStatusCode`, `toHeaders`,
  `toDelay`, `toDestroySocket`, `toHTTPRes`, `toTCPRes`);
* `validate.js` — the validator combinator library (`obj`, `or`, `and`,
  `alias`, `branch`, `isFunction`, `exclusive`, `conform`);
* `http/schema.js` and `tcp/schema.js` — the mock declaration schemas;
* `http/index.js` — the HTTP mock set: `isMatch`, the dispatch `handler`,
  the 404 fallback, and `reset`;
* `tcp/index.js` — the TCP mock set: per-connection receive buffers,
  init mocks, connection pinning, and the data handler.

JavaScript values are deep-embedded as `JSVal`.  Callables are embedded as a
small closed family of behaviours (return a constant, raise, inspect the
first argument, or a validator-produced wrapper); raising is represented by
`invoke` returning `none`.  Regular expressions are embedded as their `test`
function on strings.  Buffers are byte lists; `Buffer.from(s, 'utf8')` and
`buf.toString('utf8')` are embedded as an explicit UTF-8 encoder/decoder.
Diagnostic message *text* produced by the validator is abbreviated (claims
only depend on whether the error list is empty), while the `PendingMockError`
message of `reset` is modelled exactly.
-/

set_option linter.unusedVariables false

namespace Wirepig

/-- Tags for the validator-built late-binding wrappers (`validate.js`
`isFunction(predicate)`).  Each tag denotes the inner predicate a wrapped
callable's return value is re-validated against; `runLate` maps the tag back
to that predicate.  Only the predicates actually wrapped by the schemas in
the source appear. -/
inductive LateSchema where
  | lsBoolean
  | lsOptBufferable
  | lsStatusCodeVal
  | lsDelayVal
  | lsDestroySocketVal
  | lsResTCPVal
deriving DecidableEq

/-- Deep embedding of the JavaScript values the engine manipulates:
`undefined`, booleans, (integer) numbers, strings, byte buffers, regular
expressions (as their `test` predicate), plain objects (ordered field
lists), arrays, and callables.  Callables are a closed family: return a
constant, throw, test whether the first argument equals a given string, or
a validator-produced late-binding wrapper around another callable. -/
inductive JSVal where
  | undef
  | boolV (b : Bool)
  | numV (n : Int)
  | strV (s : String)
  | bufV (bytes : List Nat)
  | regexV (test : String → Bool)
  | objV (fields : List (String × JSVal))
  | arrV (elems : List JSVal)
  | fnConst (ret : JSVal)
  | fnRaise
  | fnIsStr (s : String)
  | fnWrapped (inner : JSVal) (ls : LateSchema)

namespace lib

/-- `lib.js` `isFunction`. -/
def isFunction : JSVal → Bool
  | .fnConst _ => true
  | .fnRaise => true
  | .fnIsStr _ => true
  | .fnWrapped _ _ => true
  | _ => false

/-- `lib.js` `isString`. -/
def isString : JSVal → Bool
  | .strV _ => true
  | _ => false

/-- `lib.js` `isBuffer`. -/
def isBuffer : JSVal → Bool
  | .bufV _ => true
  | _ => false

/-- `lib.js` `isBoolean`. -/
def isBoolean : JSVal → Bool
  | .boolV _ => true
  | _ => false

/-- `lib.js` `isPlainObject` (`v.constructor === Object`): true exactly for
plain objects; buffers, arrays, functions and regexes are excluded. -/
def isPlainObject : JSVal → Bool
  | .objV _ => true
  | _ => false

/-- `lib.js` `isArray`. -/
def isArray : JSVal → Bool
  | .arrV _ => true
  | _ => false

/-- `lib.js` `isInteger` (`Number.isInteger`); embedded numbers are integers. -/
def isInteger : JSVal → Bool
  | .numV _ => true
  | _ => false

/-- `lib.js` `isRegExp`. -/
def isRegExp : JSVal → Bool
  | .regexV _ => true
  | _ => false

/-- `lib.js` `isUndefined`. -/
def isUndefined : JSVal → Bool
  | .undef => true
  | _ => false

end lib

/-- JavaScript truthiness, used where the source applies `!v` or a value in
boolean position (`Array.prototype.find`, `if (!compare(..))`). -/
def jsTruthy : JSVal → Bool
  | .undef => false
  | .boolV b => b
  | .numV n => n != 0
  | .strV s => !s.isEmpty
  | _ => true

/-- Property lookup on a plain object's field list (`value[k]`); a missing
key reads as `undefined`. -/
def lookupJS (fields : List (String × JSVal)) (k : String) : JSVal :=
  match fields.find? (fun kv => kv.1 == k) with
  | some kv => kv.2
  | none => (.undef)

/-- Optional-chained property access (`v?.k`): `undefined` unless `v` is a
plain object holding the key. -/
def getField : JSVal → String → JSVal
  | .objV fs, k => lookupJS fs k
  | _, _ => (.undef)

/-- UTF-8 encoding of one character (`Buffer.from(s, 'utf8')`, per scalar). -/
def utf8EncodeChar (c : Char) : List Nat :=
  let n := c.toNat
  if n < 0x80 then [n]
  else if n < 0x800 then [0xC0 + n / 64, 0x80 + n % 64]
  else if n < 0x10000 then [0xE0 + n / 4096, 0x80 + n / 64 % 64, 0x80 + n % 64]
  else [0xF0 + n / 262144, 0x80 + n / 4096 % 64, 0x80 + n / 64 % 64, 0x80 + n % 64]

/-- UTF-8 encoding of a string (`Buffer.from(s, 'utf8')`). -/
def utf8Encode (s : String) : List Nat := (s.data.map utf8EncodeChar).flatten

/-- U+FFFD, emitted by Node for invalid UTF-8 input. -/
def replacementChar : Char := Char.ofNat 0xFFFD

/-- Whether a byte is a UTF-8 continuation byte. -/
def isCont (b : Nat) : Bool := 0x80 ≤ b && b < 0xC0

/-- Fuelled UTF-8 decoder (`buf.toString('utf8')`); each step consumes at
least one byte, so fuel equal to the list length computes the full decode. -/
def utf8DecodeF : Nat → List Nat → List Char
  | 0, _ => []
  | _ + 1, [] => []
  | fuel + 1, b :: rest =>
    if b < 0x80 then Char.ofNat b :: utf8DecodeF fuel rest
    else if 0xC2 ≤ b && b ≤ 0xDF then
      match rest with
      | b1 :: r =>
        if isCont b1 then Char.ofNat ((b - 0xC0) * 64 + (b1 - 0x80)) :: utf8DecodeF fuel r
        else replacementChar :: utf8DecodeF fuel rest
      | [] => [replacementChar]
    else if 0xE0 ≤ b && b ≤ 0xEF then
      match rest with
      | b1 :: b2 :: r =>
        if isCont b1 && isCont b2 then
          Char.ofNat ((b - 0xE0) * 4096 + (b1 - 0x80) * 64 + (b2 - 0x80)) :: utf8DecodeF fuel r
        else replacementChar :: utf8DecodeF fuel rest
      | _ => replacementChar :: utf8DecodeF fuel rest
    else if 0xF0 ≤ b && b ≤ 0xF4 then
      match rest with
      | b1 :: b2 :: b3 :: r =>
        if isCont b1 && isCont b2 && isCont b3 then
          Char.ofNat ((b - 0xF0) * 262144 + (b1 - 0x80) * 4096 + (b2 - 0x80) * 64 + (b3 - 0x80))
            :: utf8DecodeF fuel r
        else replacementChar :: utf8DecodeF fuel rest
      | _ => replacementChar :: utf8DecodeF fuel rest
    else replacementChar :: utf8DecodeF fuel rest

/-- UTF-8 decoding of a byte list (`buf.toString('utf8')`). -/
def utf8Decode (bs : List Nat) : String := String.mk (utf8DecodeF bs.length bs)

/-- A validator predicate, `validate.js` style: `(value, path) → (conformed,
errors)`.  Error strings are opaque to the claims; only emptiness matters. -/
abbrev VPred := JSVal → List String → JSVal × List String

namespace validate

/-- `validate.js` `error`: a one-element error list locating `path` (the
`(got <inspected-value>)` suffix is abbreviated away). -/
def error (path : List String) (message : String) : List String :=
  [String.intercalate "." path ++ " " ++ message]

/-- `validate.js` `always`. -/
def always : VPred := fun value _ => (value, [])

/-- `validate.js` `isString` predicate. -/
def isString : VPred := fun value path =>
  (value, if lib.isString value then [] else error path "must be string")

/-- `validate.js` `isPlainObject` predicate. -/
def isPlainObject : VPred := fun value path =>
  (value, if lib.isPlainObject value then [] else error path "must be plain object")

/-- `validate.js` `isBuffer` predicate. -/
def isBuffer : VPred := fun value path =>
  (value, if lib.isBuffer value then [] else error path "must be buffer")

/-- `validate.js` `isBoolean` predicate. -/
def isBoolean : VPred := fun value path =>
  (value, if lib.isBoolean value then [] else error path "must be boolean")

/-- `validate.js` `isRegExp` predicate. -/
def isRegExp : VPred := fun value path =>
  (value, if lib.isRegExp value then [] else error path "must be regular expression")

/-- `validate.js` `isUndefined` predicate. -/
def isUndefined : VPred := fun value path =>
  (value, if lib.isUndefined value then [] else error path "must be undefined")

/-- `validate.js` `isInteger` predicate. -/
def isInteger : VPred := fun value path =>
  (value, if lib.isInteger value then [] else error path "must be integer")

/-- `validate.js` `obj(schema)`: require a plain object, run each schema
field's predicate on `value[k]`, keep conformed values that are not
`undefined` (in schema order, dropping keys not in the schema), and
concatenate the per-field errors. -/
def obj (schemaFields : List (String × VPred)) : VPred := fun value path =>
  if lib.isPlainObject value then
    let results := schemaFields.map (fun kv => (kv.1, kv.2 (getField value kv.1) (path ++ [kv.1])))
    let conformed := (results.filter (fun kr => !lib.isUndefined kr.2.1)).map
      (fun kr => (kr.1, kr.2.1))
    (JSVal.objV conformed, (results.map (fun kr => kr.2.2)).flatten)
  else (value, error path "must be plain object")

/-- Worker for `or`: first predicate that reports no errors wins. -/
def orGo : List VPred → JSVal → List String → Option (JSVal × List String)
  | [], _, _ => none
  | p :: ps, value, path =>
    let res := p value path
    if res.2.isEmpty then some res else orGo ps value path

/-- `validate.js` `or(p…)`. -/
def or (predicates : List VPred) : VPred := fun value path =>
  match orGo predicates value path with
  | some res => res
  | none => (value, error path "must satisfy one of the listed predicates")

/-- Worker for `and`: thread the conformed value; on the first failing
predicate return the original value with those errors. -/
def andGo : List VPred → JSVal → JSVal → List String → JSVal × List String
  | [], _, conformed, _ => (conformed, [])
  | p :: ps, original, conformed, path =>
    let res := p conformed path
    if res.2.isEmpty then andGo ps original res.1 path else (original, res.2)

/-- `validate.js` `and(p…)`. -/
def and (predicates : List VPred) : VPred := fun value path =>
  andGo predicates value value path

/-- `validate.js` `alias(p, message)`: keep the conformed value, replace a
non-empty error list by the single aliased message. -/
def aliasP (p : VPred) (message : String) : VPred := fun value path =>
  let res := p value path
  (res.1, if res.2.isEmpty then [] else error path message)

/-- Worker for `branch`: the first gate predicate that reports no errors
selects its refinement, which receives the gate's conformed value. -/
def branchGo : List (VPred × VPred) → JSVal → List String → Option (JSVal × List String)
  | [], _, _ => none
  | bp :: bps, value, path =>
    let res := bp.1 value path
    if res.2.isEmpty then some (bp.2 res.1 path) else branchGo bps value path

/-- `validate.js` `branch(branchPreds, nextPreds, msg)`; the two parallel
lists of the source are zipped into pairs here. -/
def branch (pairs : List (VPred × VPred)) (branchMessage : String) : VPred := fun value path =>
  match branchGo pairs value path with
  | some res => res
  | none => (value, error path branchMessage)

/-- `validate.js` `isFunction(predicate)`: require a callable; when an inner
predicate is given, conform to the late-binding wrapper that re-validates
the callable's return value at each call site (deep-embedded as the
`JSVal.fnWrapped` constructor carrying the `LateSchema` tag of the inner
predicate). -/
def isFunction (predicate : Option LateSchema) : VPred := fun value path =>
  if lib.isFunction value then
    match predicate with
    | none => (value, [])
    | some ls => (JSVal.fnWrapped value ls, [])
  else (value, error path "must be function")

/-- `validate.js` `exclusive(groupA, groupB)`: on a plain object, error when
some key of each group is defined simultaneously. -/
def exclusive (groupA groupB : List String) : VPred := fun value path =>
  match value with
  | .objV fs =>
    let aDefined := groupA.filter (fun e => !lib.isUndefined (lookupJS fs e))
    let bDefined := groupB.filter (fun e => !lib.isUndefined (lookupJS fs e))
    if aDefined.length > 0 && bDefined.length > 0 then
      (value, error path (String.intercalate " or " aDefined ++
        " cannot be defined at the same time as " ++ String.intercalate " or " bDefined))
    else (value, [])
  | _ => (value, error path "must be plain object")

/-- `validate.js` `conform`: the conformed value when there are no errors;
`none` stands for the thrown `ValidationError`. -/
def conform (res : JSVal × List String) : Option JSVal :=
  if res.2.isEmpty then some res.1 else none

end validate

namespace schema

/-- `http/schema.js` `isValidStatusCode` (only reached on integers via
`and(isInteger, ·)`). -/
def isValidStatusCode : VPred := fun value path =>
  (value,
    match value with
    | .numV n => if 100 ≤ n ∧ n ≤ 599 then [] else validate.error path "must be valid status code"
    | _ => validate.error path "must be valid status code")

/-- `http/schema.js` `isPositive` (only reached on integers). -/
def isPositive : VPred := fun value path =>
  (value,
    match value with
    | .numV n => if 0 ≤ n then [] else validate.error path "must be postive"
    | _ => validate.error path "must be postive")

/-- `http/schema.js` `isPositiveInt`. -/
def isPositiveInt : VPred := validate.and [validate.isInteger, isPositive]

/-- `http/schema.js` `optComparable`: string, buffer, regex, boolean-returning
callable (late-validated), or absent. -/
def optComparable : VPred :=
  validate.aliasP
    (validate.or [validate.isString, validate.isBuffer, validate.isRegExp,
      validate.isFunction (some .lsBoolean), validate.isUndefined])
    "if defined must be string, buffer, regular expression, or function"

/-- `http/schema.js` `optBufferable`: string, buffer, or absent. -/
def optBufferable : VPred :=
  validate.aliasP (validate.or [validate.isString, validate.isBuffer, validate.isUndefined])
    "if defined must be string or buffer"

/-- `http/schema.js` `funcOptBufferable`: bufferable or callable returning
same (late-validated). -/
def funcOptBufferable : VPred :=
  validate.aliasP (validate.or [optBufferable, validate.isFunction (some .lsOptBufferable)])
    "if defined must be string, buffer, or function returning same"

/-- `http/schema.js` `delay` (`branchWithFunction([isPositiveInt, isUndefined],
[always, always], …)`): the extra function branch wraps with the value
predicate `lsDelayVal`. -/
def delay : VPred :=
  validate.branch
    [(isPositiveInt, validate.always), (validate.isUndefined, validate.always),
      (validate.isFunction (some .lsDelayVal), validate.always)]
    "if defined must be positive integer or function returning same"

/-- `http/schema.js` `destroySocket` (`branchWithFunction([isBoolean,
isUndefined], [always, always], …)`). -/
def destroySocket : VPred :=
  validate.branch
    [(validate.isBoolean, validate.always), (validate.isUndefined, validate.always),
      (validate.isFunction (some .lsDestroySocketVal), validate.always)]
    "if defined must be boolean or function returning same"

/-- `tcp/schema.js` `resObj`: `{body, bodyDelay, destroySocket}`. -/
def resObjTCP : VPred :=
  validate.obj [("body", funcOptBufferable), ("bodyDelay", delay), ("destroySocket", destroySocket)]

/-- `tcp/schema.js` `res` (`branchWithFunction([isPlainObject, optBufferable],
[resObj, always], …)`). -/
def resTCP : VPred :=
  validate.branch
    [(validate.isPlainObject, resObjTCP), (optBufferable, validate.always),
      (validate.isFunction (some .lsResTCPVal), validate.always)]
    "if defined must be object, string, or buffer or function returning same"

/-- `tcp/schema.js` `connectionPinned`. -/
def connectionPinned : VPred :=
  validate.aliasP (validate.exclusive ["init"] ["_pinnedTo"])
    "init not supported on a connection-pinned mock"

/-- The `_pinnedTo` field predicate of `tcp/schema.js` `mockSchemaObj`. -/
def pinnedToPred : VPred := validate.or [validate.isUndefined, validate.isPlainObject]

/-- The field schema of `tcp/schema.js` `mockSchemaObj`. -/
def mockFields : List (String × VPred) :=
  [("_pinnedTo", pinnedToPred), ("init", optBufferable), ("req", optComparable),
    ("res", resTCP)]

/-- `tcp/schema.js` `mockSchemaObj`: the field schema plus the two
exclusivity checks. -/
def mockSchemaObj : VPred :=
  validate.and
    [validate.obj mockFields, validate.exclusive ["init"] ["req", "res"], connectionPinned]

/-- `tcp/schema.js` `mockSchema`. -/
def mockSchema : VPred :=
  validate.branch [(validate.isPlainObject, mockSchemaObj), (validate.isUndefined, validate.always)]
    "if defined must be plain object"

end schema

/-- `tcp/index.js` `Mock`'s declaration intake:
`conform(mockSchema(o, ['options']))`; `none` is the thrown
`ValidationError`. -/
def conformMock (o : JSVal) : Option JSVal :=
  validate.conform (schema.mockSchema o ["options"])

/-- Maps a late-binding tag back to the inner predicate the validator's
wrapper re-validates a callable's return value against (`validate.js`
`isFunction`; the value predicates of the `branchWithFunction` instances in
the schemas). -/
def runLate : LateSchema → VPred
  | .lsBoolean => validate.isBoolean
  | .lsOptBufferable => schema.optBufferable
  | .lsStatusCodeVal =>
    validate.branch
      [(validate.and [validate.isInteger, schema.isValidStatusCode], validate.always),
        (validate.isUndefined, validate.always)]
      "if defined must be valid HTTP status code"
  | .lsDelayVal =>
    validate.branch
      [(schema.isPositiveInt, validate.always), (validate.isUndefined, validate.always)]
      "if defined must be positive integer"
  | .lsDestroySocketVal =>
    validate.branch
      [(validate.isBoolean, validate.always), (validate.isUndefined, validate.always)]
      "if defined must be boolean"
  | .lsResTCPVal =>
    validate.branch
      [(validate.isPlainObject, schema.resObjTCP), (schema.optBufferable, validate.always)]
      "if defined must be object, string, or buffer"

/-- The path used by a wrapper when re-validating (`options…()` in the
source); its text does not affect whether validation succeeds. -/
def latePath : List String := ["late()"]

/-- Calling a callable with an argument list.  `none` represents a thrown
exception.  A wrapper (`fnWrapped`) calls its inner callable, propagates its
exception, and otherwise re-validates the result against the inner
predicate, throwing `ValidationError` (`none`) when validation fails and
returning the conformed value otherwise (`validate.js` `lateValidator`). -/
def invoke : JSVal → List JSVal → Option JSVal
  | .fnConst ret, _ => some ret
  | .fnRaise, _ => none
  | .fnIsStr s, args =>
    some (.boolV (match args.headD .undef with
      | .strV t => s == t
      | _ => false))
  | .fnWrapped inner ls, args =>
    match invoke inner args with
    | none => none
    | some v => validate.conform (runLate ls v latePath)
  | _, _ => none

namespace lib

/-- `lib.js` `safeInvoke(f, defaultValue, ...args)`: a non-callable passes
through; a callable is invoked and any raised fault is swallowed, yielding
the default value. -/
def safeInvoke (f : JSVal) (defaultValue : JSVal) (args : List JSVal) : JSVal :=
  if isFunction f then
    match invoke f args with
    | some v => v
    | none => defaultValue
  else f

/-- `lib.js` `_compare` (and `compare`, which only adds logging), fuelled:
the ordered rule chain of the comparator.  Note the callable branch returns
the invocation result unchanged (the value, not a coerced boolean), exactly
as `return safeInvoke(desired, false, actual)` does; recursive positions
coerce with JS truthiness (`!compare(v, actual[k])`). -/
def compareF : Nat → JSVal → JSVal → JSVal
  | 0, _, _ => .boolV false
  | fuel + 1, desired, actual =>
    if isUndefined desired then .boolV true
    else if isFunction desired then safeInvoke desired (.boolV false) [actual]
    else
      match desired, actual with
      | .objV dfs, .objV afs =>
        .boolV (dfs.all (fun kv => jsTruthy (compareF fuel kv.2 (lookupJS afs kv.1))))
      | .arrV ds, .arrV as2 =>
        .boolV (ds.enum.all (fun iv => jsTruthy (compareF fuel iv.2 (as2.getD iv.1 .undef))))
      | .bufV d, .bufV a => .boolV (d == a)
      | .bufV d, .strV a => .boolV (utf8Decode d == a)
      | .strV d, .bufV a => .boolV (d == utf8Decode a)
      | .strV d, .strV a => .boolV (d == a)
      | .regexV t, .strV a => .boolV (t a)
      | .regexV t, .bufV a => .boolV (t (utf8Decode a))
      | _, _ => .boolV false

/-- `lib.js` `toStatusCode`: resolve a possible callable with the default
`undefined`, then pass integers through and fall back to `200`. -/
def toStatusCode (value : JSVal) (args : List JSVal) : Int :=
  match safeInvoke value .undef args with
  | .numV n => n
  | _ => 200

/-- `lib.js` `toBuffer`: resolve, pass buffers through, UTF-8-encode
strings, and fall back to the empty buffer. -/
def toBuffer (value : JSVal) (args : List JSVal) : List Nat :=
  match safeInvoke value .undef args with
  | .bufV b => b
  | .strV s => utf8Encode s
  | _ => []

/-- `lib.js` `toHeaders`: resolve; a plain object has each value coerced by
`toBuffer`; anything else becomes the empty header map. -/
def toHeaders (value : JSVal) (args : List JSVal) : List (String × List Nat) :=
  match safeInvoke value .undef args with
  | .objV fs => fs.map (fun kv => (kv.1, toBuffer kv.2 args))
  | _ => []

/-- `lib.js` `toDelay`: resolve, pass integers through, fall back to `0`. -/
def toDelay (value : JSVal) (args : List JSVal) : Int :=
  match safeInvoke value .undef args with
  | .numV n => n
  | _ => 0

/-- `lib.js` `toDestroySocket`: resolve, pass booleans through, fall back to
`false`. -/
def toDestroySocket (value : JSVal) (args : List JSVal) : Bool :=
  match safeInvoke value .undef args with
  | .boolV b => b
  | _ => false

/-- The record `lib.js` `toHTTPRes` produces. -/
structure HTTPRes where
  body : List Nat
  statusCode : Int
  headers : List (String × List Nat)
  headerDelay : Int
  bodyDelay : Int
  destroySocket : Bool
deriving DecidableEq

/-- `lib.js` `toHTTPRes(res, req, reqBody)`: resolve the descriptor itself
(possibly a callable), then coerce each field with its defensive coercer. -/
def toHTTPRes (res req reqBody : JSVal) : HTTPRes :=
  let r := safeInvoke res .undef [req, reqBody]
  { body := toBuffer (getField r "body") [req, reqBody]
    statusCode := toStatusCode (getField r "statusCode") [req, reqBody]
    headers := toHeaders (getField r "headers") [req, reqBody]
    headerDelay := toDelay (getField r "headerDelay") [req, reqBody]
    bodyDelay := toDelay (getField r "bodyDelay") [req, reqBody]
    destroySocket := toDestroySocket (getField r "destroySocket") [req, reqBody] }

/-- The record `lib.js` `toTCPRes` produces. -/
structure TCPRes where
  body : List Nat
  bodyDelay : Int
  destroySocket : Bool
deriving DecidableEq

/-- `lib.js` `toTCPRes(res, req)`: resolve; a non-object result is treated
as `{body: result}`; then coerce each field. -/
def toTCPRes (res req : JSVal) : TCPRes :=
  let r0 := safeInvoke res .undef [req]
  let r := if isPlainObject r0 then r0 else JSVal.objV [("body", r0)]
  { body := toBuffer (getField r "body") [req]
    bodyDelay := toDelay (getField r "bodyDelay") [req]
    destroySocket := toDestroySocket (getField r "destroySocket") [req] }

end lib

/-- The comparator exactly as the spec's ordered rule list states it
(§4.1 rules 1–9), in particular rule 2: a callable is invoked with the
actual value, a raised fault yields false, and a **non-boolean return value
yields false**.  This is the spec-side definition for the refinement claim;
`lib.compareF` is the code-side definition. -/
def specCompareF : Nat → JSVal → JSVal → Bool
  | 0, _, _ => false
  | fuel + 1, desired, actual =>
    if lib.isUndefined desired then true
    else if lib.isFunction desired then
      match invoke desired [actual] with
      | some (.boolV b) => b
      | _ => false
    else
      match desired, actual with
      | .objV dfs, .objV afs =>
        dfs.all (fun kv => specCompareF fuel kv.2 (lookupJS afs kv.1))
      | .arrV ds, .arrV as2 =>
        ds.enum.all (fun iv => specCompareF fuel iv.2 (as2.getD iv.1 .undef))
      | .bufV d, .bufV a => d == a
      | .bufV d, .strV a => utf8Decode d == a
      | .strV d, .bufV a => d == utf8Decode a
      | .strV d, .strV a => d == a
      | .regexV t, .strV a => t a
      | .regexV t, .bufV a => t (utf8Decode a)
      | _, _ => false

/-- The spec's rule list amended at rule 2 only: the callable's return value
is interpreted by JS truthiness (a raised fault still yields false), which
is what passing the raw return value to `!…`/`Array.prototype.find` does. -/
def specCompareAmendedF : Nat → JSVal → JSVal → Bool
  | 0, _, _ => false
  | fuel + 1, desired, actual =>
    if lib.isUndefined desired then true
    else if lib.isFunction desired then
      jsTruthy ((invoke desired [actual]).getD (.boolV false))
    else
      match desired, actual with
      | .objV dfs, .objV afs =>
        dfs.all (fun kv => specCompareAmendedF fuel kv.2 (lookupJS afs kv.1))
      | .arrV ds, .arrV as2 =>
        ds.enum.all (fun iv => specCompareAmendedF fuel iv.2 (as2.getD iv.1 .undef))
      | .bufV d, .bufV a => d == a
      | .bufV d, .strV a => utf8Decode d == a
      | .strV d, .bufV a => d == utf8Decode a
      | .strV d, .strV a => d == a
      | .regexV t, .strV a => t a
      | .regexV t, .bufV a => t (utf8Decode a)
      | _, _ => false

/-- `safeInvoke` unfolded through the `Option` it wraps. -/
theorem safeInvoke_eq (f dflt : JSVal) (args : List JSVal) :
    lib.safeInvoke f dflt args =
      if lib.isFunction f then (invoke f args).getD dflt else f := by
  unfold lib.safeInvoke
  cases invoke f args <;> simp

/-- Truthiness of a boolean value is that boolean. -/
theorem jsTruthy_boolV (b : Bool) : jsTruthy (.boolV b) = b := rfl

/-- The truthiness of the code comparator coincides with the spec rule list
amended at rule 2 (callable results read by truthiness), at every fuel. -/
theorem compare_eq_amended (fuel : Nat) (desired actual : JSVal) :
    jsTruthy (lib.compareF fuel desired actual) =
      specCompareAmendedF fuel desired actual := by
  induction fuel generalizing desired actual with
  | zero => rfl
  | succ fuel ih =>
    cases desired <;> cases actual <;>
      simp [lib.compareF, specCompareAmendedF, lib.isUndefined, lib.isFunction,
        safeInvoke_eq, jsTruthy_boolV, ih]

/-- C2, as stated, is refuted here: a callable predicate returning the
truthy non-boolean string "x" satisfies the code comparator (its raw return
value is passed through and read by truthiness), while the spec's rule list
says a non-boolean return value yields false. -/
theorem C2_counterexample :
    jsTruthy (lib.compareF 1 (.fnConst (.strV "x")) .undef) = true ∧
    specCompareF 1 (.fnConst (.strV "x")) .undef = false :=
  ⟨rfl, rfl⟩

/-- C2 (amended): the comparator `compare(desired, actual)` equals the
spec's ordered rule list with rule 2 amended so that the callable's return
value is read by JS truthiness — a raised fault still yields false and is
never propagated (`invoke = none` is absorbed by `safeInvoke`), but a
truthy non-boolean return satisfies the predicate and a falsy one does not;
the remaining rules (absent, maps, prefix sequences, buffers, UTF-8
buffer/string, strings, regexes, otherwise-false) are unchanged. -/
theorem C2_compare_rule_list (fuel : Nat) (desired actual : JSVal) :
    jsTruthy (lib.compareF fuel desired actual) =
      specCompareAmendedF fuel desired actual :=
  compare_eq_amended fuel desired actual

/-- The defaults `toHTTPRes` falls back to. -/
def defaultHTTPRes : lib.HTTPRes :=
  { body := [], statusCode := 200, headers := [], headerDelay := 0, bodyDelay := 0,
    destroySocket := false }

/-- C6: `toHTTPRes` never propagates a user callable's fault (raising is
`invoke = none`, absorbed by `safeInvoke` in every coercer); an absent
descriptor, a descriptor callable that faults, and a descriptor whose field
callables all fault each yield exactly the defaults (empty body, 200, empty
headers, zero delays, no socket destruction); a resolved string body is
UTF-8 encoded and a resolved buffer body passes through unchanged. -/
theorem C6_toHTTPRes_defensive :
    (∀ req b : JSVal, lib.toHTTPRes .undef req b = defaultHTTPRes) ∧
    (∀ req b : JSVal, lib.toHTTPRes .fnRaise req b = defaultHTTPRes) ∧
    (∀ req b : JSVal,
      lib.toHTTPRes
        (.objV [("body", .fnRaise), ("statusCode", .fnRaise), ("headers", .fnRaise),
          ("headerDelay", .fnRaise), ("bodyDelay", .fnRaise), ("destroySocket", .fnRaise)])
        req b = defaultHTTPRes) ∧
    (∀ (s : String) (req b : JSVal),
      (lib.toHTTPRes (.objV [("body", .strV s)]) req b).body = utf8Encode s) ∧
    (∀ (bs : List Nat) (req b : JSVal),
      (lib.toHTTPRes (.objV [("body", .bufV bs)]) req b).body = bs) :=
  ⟨fun _ _ => rfl, fun _ _ => rfl, fun _ _ => rfl, fun _ _ _ => rfl, fun _ _ _ => rfl⟩

/-- C10: when a late-validated response field callable returns a value that
fails re-validation against its inner predicate, the wrapper's
`ValidationError` (modelled as `invoke = none`) is caught by `safeInvoke`
inside the coercer and the field's defensive default is used: 200 for
`statusCode`, empty bytes for `body`, 0 for delays, `false` for
`destroySocket`; the failure is never surfaced. -/
theorem C10_late_validation_defaults (f : JSVal) (args : List JSVal) (v : JSVal)
    (hf : invoke f args = some v) :
    ((runLate .lsStatusCodeVal v latePath).2 ≠ [] →
      lib.toStatusCode (.fnWrapped f .lsStatusCodeVal) args = 200) ∧
    ((runLate .lsOptBufferable v latePath).2 ≠ [] →
      lib.toBuffer (.fnWrapped f .lsOptBufferable) args = []) ∧
    ((runLate .lsDelayVal v latePath).2 ≠ [] →
      lib.toDelay (.fnWrapped f .lsDelayVal) args = 0) ∧
    ((runLate .lsDestroySocketVal v latePath).2 ≠ [] →
      lib.toDestroySocket (.fnWrapped f .lsDestroySocketVal) args = false) := by
  refine ⟨fun h => ?_, fun h => ?_, fun h => ?_, fun h => ?_⟩ <;>
    simp [lib.toStatusCode, lib.toBuffer, lib.toDelay, lib.toDestroySocket,
      lib.safeInvoke, lib.isFunction, invoke, hf, validate.conform,
      List.isEmpty_iff, h]

/-- C10 witness: a `statusCode` callable returning the string "np" fails
re-validation and the resolver yields 200. -/
theorem C10_witness :
    invoke (.fnConst (.strV "np")) [] = some (.strV "np") ∧
    (runLate .lsStatusCodeVal (.strV "np") latePath).2 ≠ [] ∧
    lib.toStatusCode (.fnWrapped (.fnConst (.strV "np")) .lsStatusCodeVal) [] = 200 :=
  ⟨rfl, by decide, (C10_late_validation_defaults (.fnConst (.strV "np")) [] (.strV "np") rfl).1
    (by decide)⟩

/-- `Array.prototype.find` over a list, returning the index as well: the
first element satisfying the predicate. -/
def findFirst (p : α → Bool) : List α → Option (Nat × α)
  | [] => none
  | a :: as =>
    if p a then some (0, a)
    else
      match findFirst p as with
      | some ia => some (ia.1 + 1, ia.2)
      | none => none

/-- When `findFirst` reports nothing, no element satisfies the predicate. -/
theorem findFirst_none {α : Type} {p : α → Bool} {l : List α}
    (h : findFirst p l = none) : ∀ (j : Nat) (b : α), l[j]? = some b → p b = false := by
  induction l with
  | nil => intro j b hj; simp at hj
  | cons hd tl ih =>
    intro j b hj
    by_cases hp : p hd
    · simp [findFirst, hp] at h
    · cases hfind : findFirst p tl with
      | some ia => simp [findFirst, hp, hfind] at h
      | none =>
        cases j with
        | zero =>
          have hb : hd = b := by simpa using hj
          simpa [← hb] using hp
        | succ j => exact ih hfind j b (by simpa using hj)

/-- No element satisfying the predicate means `findFirst` reports nothing. -/
theorem findFirst_none_of {α : Type} {p : α → Bool} {l : List α}
    (h : ∀ (j : Nat) (b : α), l[j]? = some b → p b = false) : findFirst p l = none := by
  induction l with
  | nil => rfl
  | cons hd tl ih =>
    have hp : p hd = false := h 0 hd (by simp)
    have htl : findFirst p tl = none := ih (fun j b hj => h (j + 1) b (by simpa using hj))
    simp [findFirst, hp, htl]

/-- `findFirst` reports the first satisfying element: it is at the reported
index, it satisfies the predicate, and every earlier element fails it. -/
theorem findFirst_some {α : Type} {p : α → Bool} {l : List α} {i : Nat} {a : α}
    (h : findFirst p l = some (i, a)) :
    l[i]? = some a ∧ p a = true ∧
      ∀ (j : Nat) (b : α), j < i → l[j]? = some b → p b = false := by
  induction l generalizing i with
  | nil => simp [findFirst] at h
  | cons hd tl ih =>
    by_cases hp : p hd
    · simp [findFirst, hp] at h
      obtain ⟨hi, ha⟩ := h
      subst hi
      subst ha
      exact ⟨by simp, hp, fun j b hj _ => absurd hj (by omega)⟩
    · cases hfind : findFirst p tl with
      | none => simp [findFirst, hp, hfind] at h
      | some ia =>
        simp [findFirst, hp, hfind] at h
        obtain ⟨hi, ha⟩ := h
        subst ha
        subst hi
        obtain ⟨hget, hpa, hmin⟩ := ih hfind
        refine ⟨by simpa using hget, hpa, ?_⟩
        intro j b hj hjget
        cases j with
        | zero =>
          have hb : hd = b := by simpa using hjget
          simpa [← hb] using hp
        | succ j => exact hmin j b (by omega) (by simpa using hjget)

namespace http

/-- An HTTP mock (`http/index.js` `Mock`): the conformed request predicate
`options.req`, the response descriptor `options.res`, and the `done` flag
(`isPending() = (done === false)`). -/
structure Mock where
  req : JSVal
  res : JSVal
  done : Bool

/-- `http/index.js` `isMatch` in boolean position (`mocks.find`): a pending
mock whose predicate is satisfied (by JS truthiness of `compare`) by the
parsed request record. -/
def isMatch (fuel : Nat) (m : Mock) (reqVal : JSVal) : Bool :=
  !m.done && jsTruthy (lib.compareF fuel m.req reqVal)

/-- The incoming request as seen by the handler: raw fields (`req.method`,
`req.url`, `req.httpVersion` for `printReq`), parse results (`parseReq`:
pathname and query via `new URL`, wire-cased headers from `rawHeaders` — the
URL parser itself is an external collaborator), and the raw request object
handed to response callables. -/
structure RawReq where
  method : String
  url : String
  httpVersion : String
  pathname : String
  query : String
  headers : List (String × JSVal)
  nodeReq : JSVal

/-- The record `isMatch` compares the predicate against (`http/index.js`
lines 78–86): method, pathname, query, headers, and buffered body. -/
def mkReqVal (r : RawReq) (body : List Nat) : JSVal :=
  .objV [("method", .strV r.method), ("pathname", .strV r.pathname),
    ("query", .strV r.query), ("headers", .objV r.headers), ("body", .bufV body)]

/-- `http/index.js` `printReq`. -/
def printReq (r : RawReq) : String :=
  "[" ++ r.method ++ " " ++ r.url ++ " HTTP/" ++ r.httpVersion ++ "]"

/-- Outcome of one handler run: a matched mock (by index) with its resolved
response, or the fallback response (status, headers, body). -/
inductive HandlerOut where
  | matched (idx : Nat) (res : lib.HTTPRes)
  | noMatch (status : Nat) (headers : List (String × String)) (body : String)

/-- `http/index.js` `MockSet.handler` (state part): find the first mock
with `isMatch`, mark it matched and resolve its response descriptor;
otherwise answer 404 `text/plain` with the fallback body.  Delay sleeps and
socket writes are I/O and are not part of the state model. -/
def handler (fuel : Nat) (mocks : List Mock) (r : RawReq) (reqBody : List Nat) :
    List Mock × HandlerOut :=
  match findFirst (fun m => isMatch fuel m (mkReqVal r reqBody)) mocks with
  | some im =>
    (mocks.set im.1 { im.2 with done := true },
      .matched im.1 (lib.toHTTPRes im.2.res r.nodeReq (.bufV reqBody)))
  | none =>
    (mocks, .noMatch 404 [("Content-Type", "text/plain")]
      ("No matching mock was found for " ++ printReq r))

end http

/-- A mock as `MockSet.reset` sees it (both listeners): its pending state
and its printable form (`toString`, whose `util.inspect` rendering is kept
abstract as a string field). -/
structure PMock where
  pending : Bool
  printed : String

/-- `MockSet.reset` of `http/index.js` and `tcp/index.js` (identical code):
partition off the pending mocks, empty the list, and then — when pending
mocks remain and `throwOnPending` — raise `PendingMockError` (modelled as
`some message`) with the pending mocks joined by `', '`. -/
def reset (mocks : List PMock) (throwOnPending : Bool) : Option String × List PMock :=
  let pendingList := mocks.filter (fun m => m.pending)
  if pendingList.length != 0 then
    if throwOnPending then
      (some ("The following mocks are still pending: " ++
        String.intercalate ", " (pendingList.map (fun m => m.printed))), [])
    else (none, [])
  else (none, [])

/-- `isMatch` in propositional form. -/
theorem isMatch_true_iff (fuel : Nat) (m : http.Mock) (v : JSVal) :
    http.isMatch fuel m v = true ↔
      m.done = false ∧ jsTruthy (lib.compareF fuel m.req v) = true := by
  simp [http.isMatch, Bool.and_eq_true, Bool.not_eq_true']

/-- C1: when the HTTP handler dispatches, the chosen mock is pending and its
predicate is satisfied by the parsed request; every earlier mock in
insertion order is not a pending satisfied mock (in particular,
already-matched mocks are skipped even if their predicate is satisfied);
exactly the chosen mock is marked matched (all other list entries are
untouched); and the emitted response is the resolution of the chosen mock's
descriptor. -/
theorem C1_http_dispatch_first_match (fuel : Nat) (mocks : List http.Mock) (r : http.RawReq)
    (reqBody : List Nat) (mocks' : List http.Mock) (i : Nat) (res : lib.HTTPRes)
    (h : http.handler fuel mocks r reqBody = (mocks', .matched i res)) :
    ∃ m, mocks[i]? = some m ∧ m.done = false ∧
      jsTruthy (lib.compareF fuel m.req (http.mkReqVal r reqBody)) = true ∧
      (∀ (j : Nat) (m' : http.Mock), j < i → mocks[j]? = some m' →
        ¬(m'.done = false ∧
          jsTruthy (lib.compareF fuel m'.req (http.mkReqVal r reqBody)) = true)) ∧
      mocks'[i]? = some { m with done := true } ∧
      (∀ j : Nat, j ≠ i → mocks'[j]? = mocks[j]?) ∧
      res = lib.toHTTPRes m.res r.nodeReq (.bufV reqBody) := by
  cases hfind : findFirst (fun m => http.isMatch fuel m (http.mkReqVal r reqBody)) mocks with
  | none => simp [http.handler, hfind] at h
  | some im =>
    simp [http.handler, hfind] at h
    obtain ⟨hm', hi, hres⟩ := h
    obtain ⟨hget, hp, hmin⟩ := findFirst_some hfind
    obtain ⟨hdone, hsat⟩ := (isMatch_true_iff fuel im.2 (http.mkReqVal r reqBody)).mp hp
    have hlen : im.1 < mocks.length := by
      by_contra hc
      rw [List.getElem?_eq_none (by omega)] at hget
      exact Option.noConfusion hget
    subst hi
    refine ⟨im.2, hget, hdone, hsat, ?_, ?_, ?_, hres.symm⟩
    · intro j m' hj hjget hbad
      have hfalse := hmin j m' hj hjget
      have htrue : http.isMatch fuel m' (http.mkReqVal r reqBody) = true :=
        (isMatch_true_iff fuel m' (http.mkReqVal r reqBody)).mpr hbad
      rw [htrue] at hfalse
      exact Bool.noConfusion hfalse
    · rw [← hm']
      simp [List.getElem?_set_self, hlen]
    · intro j hj
      rw [← hm', List.getElem?_set_ne (by omega)]

/-- Concrete mocks and request for witnesses: a matched mock whose predicate
matches anything, a pending mock whose predicate matches anything, and a
plain GET request. -/
def wMockDone : http.Mock := { req := .undef, res := .undef, done := true }

/-- A pending HTTP mock whose (absent) predicate matches anything. -/
def wMockPending : http.Mock := { req := .undef, res := .undef, done := false }

/-- A concrete parsed request for witnesses. -/
def wReq : http.RawReq :=
  { method := "GET", url := "/x", httpVersion := "1.1", pathname := "/x", query := "",
    headers := [], nodeReq := .undef }

/-- C1 witness: with a matched mock first (whose predicate matches anything)
and a pending mock second, dispatch skips the matched mock and selects the
pending one at index 1, marking only it. -/
theorem C1_witness :
    ∃ m, [wMockDone, wMockPending][1]? = some m ∧ m.done = false ∧
      jsTruthy (lib.compareF 1 m.req (http.mkReqVal wReq [])) = true ∧
      (∀ (j : Nat) (m' : http.Mock), j < 1 → [wMockDone, wMockPending][j]? = some m' →
        ¬(m'.done = false ∧
          jsTruthy (lib.compareF 1 m'.req (http.mkReqVal wReq [])) = true)) ∧
      ([wMockDone, wMockPending].set 1 { wMockPending with done := true })[1]? =
        some { m with done := true } ∧
      (∀ j : Nat, j ≠ 1 →
        ([wMockDone, wMockPending].set 1 { wMockPending with done := true })[j]? =
          [wMockDone, wMockPending][j]?) ∧
      lib.toHTTPRes wMockPending.res wReq.nodeReq (.bufV []) =
        lib.toHTTPRes m.res wReq.nodeReq (.bufV []) :=
  C1_http_dispatch_first_match 1 [wMockDone, wMockPending] wReq []
    ([wMockDone, wMockPending].set 1 { wMockPending with done := true }) 1
    (lib.toHTTPRes wMockPending.res wReq.nodeReq (.bufV [])) rfl

/-- C5: when no registered mock is a pending mock whose predicate is
satisfied by the parsed request, the handler leaves the mock list unchanged
and answers status 404 with a `Content-Type: text/plain` header and the body
`No matching mock was found for [<METHOD> <URL> HTTP/<VERSION>]` built by
`printReq` from the raw request. -/
theorem C5_http_fallback_404 (fuel : Nat) (mocks : List http.Mock) (r : http.RawReq)
    (reqBody : List Nat)
    (h : ∀ (j : Nat) (m : http.Mock), mocks[j]? = some m →
      ¬(m.done = false ∧
        jsTruthy (lib.compareF fuel m.req (http.mkReqVal r reqBody)) = true)) :
    http.handler fuel mocks r reqBody =
      (mocks, .noMatch 404 [("Content-Type", "text/plain")]
        ("No matching mock was found for " ++ http.printReq r)) := by
  have hnone : findFirst (fun m => http.isMatch fuel m (http.mkReqVal r reqBody)) mocks
      = none := by
    apply findFirst_none_of
    intro j b hj
    cases hb : http.isMatch fuel b (http.mkReqVal r reqBody) with
    | false => rfl
    | true => exact absurd ((isMatch_true_iff fuel b (http.mkReqVal r reqBody)).mp hb) (h j b hj)
  simp [http.handler, hnone]

/-- C5 witness: with a single already-matched mock, the handler answers the
exact 404 fallback. -/
theorem C5_witness :
    http.handler 1 [wMockDone] wReq [] =
      ([wMockDone], .noMatch 404 [("Content-Type", "text/plain")]
        ("No matching mock was found for " ++ http.printReq wReq)) :=
  C5_http_fallback_404 1 [wMockDone] wReq []
    (by
      intro j m hj
      match j, hj with
      | 0, hj =>
        have hm : wMockDone = m := by simpa using hj
        simp [← hm, wMockDone]
      | j + 1, hj => simp at hj)

/-- C3: `reset` with `throwOnPending` at its default `true` raises
`PendingMockError` (models as `some message`) exactly when some registered
mock is still pending; the message names each pending mock in its printable
form, joined by `', '`; and in every case — raising or not — the mock list
is left empty, so a failing reset discards matched and pending mocks alike. -/
theorem C3_reset_contract (mocks : List PMock) :
    reset mocks true =
      (if mocks.any (fun m => m.pending) then
        some ("The following mocks are still pending: " ++
          String.intercalate ", "
            ((mocks.filter (fun m => m.pending)).map (fun m => m.printed)))
      else none, []) := by
  unfold reset
  by_cases h : mocks.any (fun m => m.pending)
  · have hne : mocks.filter (fun m => m.pending) ≠ [] := by
      simp only [List.any_eq_true] at h
      obtain ⟨x, hx, hpx⟩ := h
      intro hnil
      have : x ∈ mocks.filter (fun m => m.pending) := List.mem_filter.mpr ⟨hx, hpx⟩
      simp [hnil] at this
    have : (mocks.filter (fun m => m.pending)).length ≠ 0 := by
      simpa [List.length_eq_zero] using hne
    simp [h, this]
  · have h' : ∀ x ∈ mocks, x.pending = false := by
      simpa [List.any_eq_true] using h
    have hnil : mocks.filter (fun m => m.pending) = [] :=
      List.filter_eq_nil_iff.mpr (fun a ha => by simp [h' a ha])
    simp [h, hnil]

namespace tcp

/-- A TCP mock (`tcp/index.js` `Mock`): `isInitM` is `isInit()` (whether
`options.init` is defined); `isHeadMock` and `recIdx` embed the
`[isHeadMock, pinnedTo]` destructuring — a mock without `_pinnedTo` is a
head owning a fresh pinning record, a mock with `_pinnedTo` is a tail
sharing its creator's record; `recIdx` indexes the shared record in the
state's `records` store (the shared mutable `{connection}` objects). -/
structure Mock where
  isInitM : Bool
  req : JSVal
  res : JSVal
  isHeadMock : Bool
  recIdx : Nat
  done : Bool

/-- `tcp/index.js` `isMatch(bytes, connection)`: an init or already-matched
mock never matches; the predicate must be satisfied by the whole buffer; a
head is eligible on any connection; a tail only when its pinning record
already points to this connection (`pinnedTo.connection === connection`;
the record's `null` initial value, `none`, never equals a connection). -/
def isMatch (fuel : Nat) (records : List (Option Nat)) (m : Mock) (bytes : List Nat)
    (cid : Nat) : Bool :=
  if m.isInitM || m.done || !jsTruthy (lib.compareF fuel m.req (.bufV bytes)) then false
  else if m.isHeadMock then true
  else (records[m.recIdx]?).getD none == some cid

/-- A live connection: its identity and the per-connection receive buffer
(`let recv = Buffer.from([])` in the connection handler closure). -/
structure Conn where
  cid : Nat
  recv : List Nat

/-- The TCP mock set state: the registered mocks in insertion order, the
pinning records (one per head, `none` = `null`), and the live connections. -/
structure State where
  mocks : List Mock
  records : List (Option Nat)
  conns : List Conn

/-- The two events the connection handler reacts to. -/
inductive Event where
  | connOpen (cid : Nat)
  | dataArrival (cid : Nat) (chunk : List Nat)

/-- `Mock.match(connection)`: set `done`; a head additionally writes the
connection into its shared pinning record. -/
def applyMatch (st : State) (i : Nat) (m : Mock) (cid : Nat) : State :=
  { st with
    mocks := st.mocks.set i { m with done := true }
    records := if m.isHeadMock then st.records.set m.recIdx (some cid) else st.records }

/-- The connection with the given identity, if open (the first one, as
`Array.prototype.find` would). -/
def findConn : List Conn → Nat → Option Conn
  | [], _ => none
  | c :: cs, cid => if c.cid == cid then some c else findConn cs cid

/-- Replace the receive buffer of the given connection. -/
def setConnBuf (conns : List Conn) (cid : Nat) (b : List Nat) : List Conn :=
  conns.map (fun c => if c.cid == cid then { c with recv := b } else c)

/-- One handler event (`tcp/index.js` `handler`).  On connection
establishment: register the connection with an empty buffer and match the
first pending init mock, if any (writing its payload is I/O).  On data: the
chunk is appended to the connection's buffer, the first mock with `isMatch`
on the whole buffer is matched and the buffer cleared; otherwise the buffer
keeps accumulating.  Response resolution/writes and socket destruction are
I/O and outside the state. -/
def step (fuel : Nat) (st : State) : Event → State
  | .connOpen cid =>
    let st1 : State := { st with conns := st.conns ++ [{ cid := cid, recv := [] }] }
    match findFirst (fun m => m.isInitM && !m.done) st1.mocks with
    | some im => applyMatch st1 im.1 im.2 cid
    | none => st1
  | .dataArrival cid chunk =>
    match findConn st.conns cid with
    | none => st
    | some conn =>
      let recv1 := conn.recv ++ chunk
      match findFirst (fun m => isMatch fuel st.records m recv1 cid) st.mocks with
      | some im =>
        let st' := applyMatch st im.1 im.2 cid
        { st' with conns := setConnBuf st'.conns cid [] }
      | none => { st with conns := setConnBuf st.conns cid recv1 }

/-- Run a trace of events. -/
def run (fuel : Nat) (st : State) : List Event → State
  | [] => st
  | ev :: evs => run fuel (step fuel st ev) evs

/-- The receive buffer of a connection, if open. -/
def bufOf (st : State) (cid : Nat) : Option (List Nat) :=
  (findConn st.conns cid).map (fun c => c.recv)

/-- Whether a data arrival on `cid` with accumulated buffer `recv1` matches
some mock in the current state. -/
def matchedOnData (fuel : Nat) (st : State) (cid : Nat) (recv1 : List Nat) : Bool :=
  (findFirst (fun m => isMatch fuel st.records m recv1 cid) st.mocks).isSome

/-- Specification-side ghost bookkeeping: how one event updates the list of
chunks received on `cid` since the last successful match on it (`none`
while the connection is not open; emptied when it is opened or when a data
arrival on it matches; extended by a non-matching data arrival on it). -/
def nextAcc (fuel : Nat) (cid : Nat) (st : State) (ev : Event)
    (acc : Option (List (List Nat))) : Option (List (List Nat)) :=
  match ev, acc with
  | .connOpen c, none => if c == cid then some [] else none
  | .connOpen _, some l => some l
  | .dataArrival c chunk, some l =>
    if c == cid then
      (if matchedOnData fuel st c (l.flatten ++ chunk) then some [] else some (l ++ [chunk]))
    else some l
  | .dataArrival _ _, none => none

/-- Specification-side ghost: the chunks received on `cid` since the last
successful match on it (or since it was opened), following the trace
alongside the model. -/
def chunksSince (fuel : Nat) (cid : Nat) :
    State → List Event → Option (List (List Nat)) → Option (List (List Nat))
  | _, [], acc => acc
  | st, ev :: evs, acc =>
    chunksSince fuel cid (step fuel st ev) evs (nextAcc fuel cid st ev acc)

/-- Updating a connection's buffer updates exactly that connection. -/
theorem findConn_setConnBuf_self (conns : List Conn) (cid : Nat) (b : List Nat) :
    findConn (setConnBuf conns cid b) cid =
      (findConn conns cid).map (fun c => { c with recv := b }) := by
  induction conns with
  | nil => rfl
  | cons c cs ih =>
    by_cases hc : c.cid = cid
    · simp [findConn, setConnBuf, hc]
    · simpa [findConn, setConnBuf, hc] using ih

/-- Updating one connection's buffer leaves other connections' lookups
unchanged. -/
theorem findConn_setConnBuf_ne (conns : List Conn) (cid cid' : Nat) (b : List Nat)
    (h : cid' ≠ cid) :
    findConn (setConnBuf conns cid b) cid' = findConn conns cid' := by
  induction conns with
  | nil => rfl
  | cons c cs ih =>
    by_cases hc : c.cid = cid
    · have hne : c.cid ≠ cid' := by omega
      simpa [findConn, setConnBuf, hc, hne, Ne.symm h] using ih
    · by_cases hc' : c.cid = cid'
      · simp [findConn, setConnBuf, hc, hc', h]
      · simpa [findConn, setConnBuf, hc, hc'] using ih

/-- Appending a fresh connection: lookups of already-open identities are
unchanged, an unknown identity finds the new connection if it matches. -/
theorem findConn_append (conns : List Conn) (cid0 cid : Nat) :
    findConn (conns ++ [{ cid := cid0, recv := [] }]) cid =
      match findConn conns cid with
      | some c => some c
      | none => if cid0 == cid then some { cid := cid0, recv := [] } else none := by
  induction conns with
  | nil => rfl
  | cons c cs ih =>
    by_cases hc : c.cid = cid
    · simp [findConn, hc]
    · simpa [findConn, hc] using ih

/-- A data arrival on an open connection: the chunk is appended and the
resulting buffer is emptied exactly when the arrival matched a mock. -/
theorem step_data_buffer (fuel : Nat) (st : State) (cid : Nat) (chunk buf : List Nat)
    (h : bufOf st cid = some buf) :
    bufOf (step fuel st (.dataArrival cid chunk)) cid =
      some (if matchedOnData fuel st cid (buf ++ chunk) then [] else buf ++ chunk) := by
  obtain ⟨c0, hfc, hrecv⟩ : ∃ c0, findConn st.conns cid = some c0 ∧ c0.recv = buf := by
    unfold bufOf at h
    cases hf : findConn st.conns cid with
    | none => rw [hf] at h; simp at h
    | some c0 =>
      rw [hf] at h
      simp at h
      exact ⟨c0, rfl, h⟩
  subst hrecv
  cases hff : findFirst (fun m => isMatch fuel st.records m (c0.recv ++ chunk) cid) st.mocks with
  | some im =>
    simp [step, hfc, hff, bufOf, applyMatch, matchedOnData, findConn_setConnBuf_self]
  | none =>
    simp [step, hfc, hff, bufOf, matchedOnData, findConn_setConnBuf_self]

/-- A data arrival on another connection leaves this connection's buffer
unchanged. -/
theorem step_data_other (fuel : Nat) (st : State) (c cid : Nat) (chunk : List Nat)
    (h : c ≠ cid) :
    bufOf (step fuel st (.dataArrival c chunk)) cid = bufOf st cid := by
  cases hfc : findConn st.conns c with
  | none => simp [step, hfc]
  | some conn =>
    cases hff : findFirst (fun m => isMatch fuel st.records m (conn.recv ++ chunk) c)
        st.mocks with
    | some im =>
      simp [step, hfc, hff, bufOf, applyMatch, findConn_setConnBuf_ne _ _ _ _ (Ne.symm h)]
    | none =>
      simp [step, hfc, hff, bufOf, findConn_setConnBuf_ne _ _ _ _ (Ne.symm h)]

/-- Opening a connection: this connection's buffer afterwards is read from
the extended connection list (the init-mock match does not touch buffers). -/
theorem step_connOpen_buffer (fuel : Nat) (st : State) (c cid : Nat) :
    bufOf (step fuel st (.connOpen c)) cid =
      (findConn (st.conns ++ [{ cid := c, recv := [] }]) cid).map (fun x => x.recv) := by
  cases hinit : findFirst (fun m => m.isInitM && !m.done) st.mocks with
  | some im => simp [step, hinit, bufOf, applyMatch]
  | none => simp [step, hinit, bufOf]

/-- The per-connection receive buffer tracks the spec's ghost: it is the
byte-exact concatenation of the chunks received on that connection since
the last successful match on it (or since it was opened). -/
theorem run_buffer_spec (fuel : Nat) (cid : Nat) (evs : List Event) (st : State)
    (acc : Option (List (List Nat))) (hrel : bufOf st cid = acc.map List.flatten) :
    bufOf (run fuel st evs) cid = (chunksSince fuel cid st evs acc).map List.flatten := by
  induction evs generalizing st acc with
  | nil => simpa [run, chunksSince] using hrel
  | cons ev evs ih =>
    have hstep : bufOf (step fuel st ev) cid =
        (nextAcc fuel cid st ev acc).map List.flatten := by
      cases ev with
      | connOpen c =>
        rw [step_connOpen_buffer, findConn_append]
        cases acc with
        | some l =>
          obtain ⟨c0, hfc, hrecv⟩ : ∃ c0, findConn st.conns cid = some c0 ∧
              c0.recv = l.flatten := by
            unfold bufOf at hrel
            cases hf : findConn st.conns cid with
            | none => rw [hf] at hrel; simp at hrel
            | some c0 =>
              rw [hf] at hrel
              simp at hrel
              exact ⟨c0, rfl, hrel⟩
          rw [hfc]
          simp [nextAcc, hrecv]
        | none =>
          have hfc : findConn st.conns cid = none := by
            unfold bufOf at hrel
            cases hf : findConn st.conns cid with
            | none => rfl
            | some c0 => rw [hf] at hrel; simp at hrel
          rw [hfc]
          by_cases hcc : c = cid <;> simp [nextAcc, hcc]
      | dataArrival c chunk =>
        by_cases hcc : c = cid
        · subst hcc
          cases acc with
          | some l =>
            rw [step_data_buffer fuel st c chunk l.flatten (by simpa using hrel)]
            by_cases hm : matchedOnData fuel st c (l.flatten ++ chunk) <;>
              simp [nextAcc, hm]
          | none =>
            have hfc : findConn st.conns c = none := by
              unfold bufOf at hrel
              cases hf : findConn st.conns c with
              | none => rfl
              | some c0 => rw [hf] at hrel; simp at hrel
            simp [step, hfc, nextAcc]
            simp [bufOf, hfc]

        · rw [step_data_other fuel st c cid chunk hcc, hrel]
          cases acc <;> simp [nextAcc, hcc]
    rw [show run fuel st (ev :: evs) = run fuel (step fuel st ev) evs from rfl,
      show chunksSince fuel cid st (ev :: evs) acc =
        chunksSince fuel cid (step fuel st ev) evs (nextAcc fuel cid st ev acc) from rfl]
    exact ih (step fuel st ev) (nextAcc fuel cid st ev acc) hstep

/-- Well-formedness from validation: an init mock is always a head
(`tcp/schema.js` rejects `init` on a connection-pinned mock, so init mocks
never carry `_pinnedTo`). -/
def WFInit (st : State) : Prop :=
  ∀ (j : Nat) (m : Mock), st.mocks[j]? = some m → m.isInitM = true → m.isHeadMock = true

/-- A written pinning record always has a matched head owning it. -/
def RecInv (st : State) : Prop :=
  ∀ (r c : Nat), st.records[r]? = some (some c) →
    ∃ (k : Nat) (hm : Mock), st.mocks[k]? = some hm ∧ hm.isHeadMock = true ∧
      hm.recIdx = r ∧ hm.done = true

/-- A matched tail always has a matched head sharing its pinning record. -/
def TailInv (st : State) : Prop :=
  ∀ (j : Nat) (t : Mock), st.mocks[j]? = some t → t.isHeadMock = false → t.done = true →
    ∃ (k : Nat) (hm : Mock), st.mocks[k]? = some hm ∧ hm.isHeadMock = true ∧
      hm.recIdx = t.recIdx ∧ hm.done = true

/-- What a successful `isMatch` implies: not init, pending, predicate
satisfied by the buffer, and eligibility — a head unconditionally, a tail
only when its pinning record already points to this connection. -/
theorem isMatch_true_elim {fuel : Nat} {records : List (Option Nat)} {m : Mock}
    {bytes : List Nat} {cid : Nat} (h : isMatch fuel records m bytes cid = true) :
    m.isInitM = false ∧ m.done = false ∧
      jsTruthy (lib.compareF fuel m.req (.bufV bytes)) = true ∧
      (m.isHeadMock = true ∨
        (m.isHeadMock = false ∧ records[m.recIdx]? = some (some cid))) := by
  cases hii : m.isInitM with
  | true =>
    rw [isMatch, if_pos (by simp [hii])] at h
    exact Bool.noConfusion h
  | false =>
    cases hdd : m.done with
    | true =>
      rw [isMatch, if_pos (by simp [hdd])] at h
      exact Bool.noConfusion h
    | false =>
      cases hcc : jsTruthy (lib.compareF fuel m.req (.bufV bytes)) with
      | false =>
        rw [isMatch, if_pos (by simp [hii, hdd, hcc])] at h
        exact Bool.noConfusion h
      | true =>
        rw [isMatch, if_neg (by simp [hii, hdd, hcc])] at h
        by_cases hh : m.isHeadMock = true
        · exact ⟨rfl, rfl, rfl, Or.inl hh⟩
        · rw [if_neg hh] at h
          have hbeq : (records[m.recIdx]?).getD none = some cid := by simpa using h
          cases hr : records[m.recIdx]? with
          | none => rw [hr] at hbeq; simp at hbeq
          | some o =>
            rw [hr] at hbeq
            simp only [Option.getD_some] at hbeq
            subst hbeq
            exact ⟨rfl, rfl, rfl, Or.inr ⟨by simpa using hh, rfl⟩⟩

/-- Index bound from a successful optional lookup. -/
theorem lt_of_getElem?_some {α : Type} {l : List α} {i : Nat} {a : α}
    (h : l[i]? = some a) : i < l.length := by
  obtain ⟨hlt, _⟩ := List.getElem?_eq_some.mp h
  exact hlt

/-- The mock list after `Mock.match`: the matched index now carries the
`done` mock, the rest is unchanged. -/
theorem applyMatch_mocks_self (st : State) (i : Nat) (m : Mock) (cid : Nat)
    (hget : st.mocks[i]? = some m) :
    (applyMatch st i m cid).mocks[i]? = some { m with done := true } := by
  show (st.mocks.set i _)[i]? = _
  exact List.getElem?_set_self (lt_of_getElem?_some hget)

/-- The mock list after `Mock.match`, away from the matched index. -/
theorem applyMatch_mocks_ne (st : State) (i : Nat) (m : Mock) (cid : Nat) (j : Nat)
    (hji : j ≠ i) : (applyMatch st i m cid).mocks[j]? = st.mocks[j]? := by
  show (st.mocks.set i _)[j]? = _
  exact List.getElem?_set_ne (by omega)

/-- A previously matched mock is still present, at the same index, after
some pending mock is matched. -/
theorem applyMatch_keeps_done (st : State) (i : Nat) (m : Mock) (cid : Nat)
    (hget : st.mocks[i]? = some m) (hdone : m.done = false)
    {k : Nat} {hm : Mock} (hk : st.mocks[k]? = some hm) (hmdone : hm.done = true) :
    (applyMatch st i m cid).mocks[k]? = some hm := by
  have hki : k ≠ i := by
    intro heq
    subst heq
    rw [hget] at hk
    cases hk
    rw [hmdone] at hdone
    exact Bool.noConfusion hdone
  rw [applyMatch_mocks_ne st i m cid k hki]
  exact hk

/-- `Mock.match` preserves well-formedness. -/
theorem applyMatch_wf (st : State) (i : Nat) (m : Mock) (cid : Nat)
    (hget : st.mocks[i]? = some m) (hwf : WFInit st) : WFInit (applyMatch st i m cid) := by
  intro j m0 hj hinit
  by_cases hji : j = i
  · subst hji
    rw [applyMatch_mocks_self st j m cid hget] at hj
    cases hj
    exact hwf j m hget (by simpa using hinit)
  · rw [applyMatch_mocks_ne st i m cid j hji] at hj
    exact hwf j m0 hj hinit

/-- `Mock.match` preserves the two pinning invariants, provided the matched
mock is pending and eligible (a head, or a tail whose record already points
to the connection). -/
theorem applyMatch_inv (st : State) (i : Nat) (m : Mock) (cid : Nat)
    (hget : st.mocks[i]? = some m) (hdone : m.done = false)
    (helig : m.isHeadMock = true ∨
      (m.isHeadMock = false ∧ st.records[m.recIdx]? = some (some cid)))
    (hrec : RecInv st) (htail : TailInv st) :
    RecInv (applyMatch st i m cid) ∧ TailInv (applyMatch st i m cid) := by
  constructor
  · intro r c hr
    by_cases hh : m.isHeadMock = true
    · by_cases hri : m.recIdx = r
      · subst hri
        exact ⟨i, { m with done := true }, applyMatch_mocks_self st i m cid hget,
          by simpa using hh, rfl, rfl⟩
      · have : (applyMatch st i m cid).records[r]? = st.records[r]? := by
          show (if m.isHeadMock then st.records.set m.recIdx (some cid)
            else st.records)[r]? = _
          rw [if_pos hh]
          exact List.getElem?_set_ne (by omega)
        rw [this] at hr
        obtain ⟨k, hm, hk, hmh, hmr, hmd⟩ := hrec r c hr
        exact ⟨k, hm, applyMatch_keeps_done st i m cid hget hdone hk hmd, hmh, hmr, hmd⟩
    · have : (applyMatch st i m cid).records[r]? = st.records[r]? := by
        show (if m.isHeadMock then st.records.set m.recIdx (some cid)
          else st.records)[r]? = _
        rw [if_neg hh]
      rw [this] at hr
      obtain ⟨k, hm, hk, hmh, hmr, hmd⟩ := hrec r c hr
      exact ⟨k, hm, applyMatch_keeps_done st i m cid hget hdone hk hmd, hmh, hmr, hmd⟩
  · intro j t hj hth htd
    by_cases hji : j = i
    · subst hji
      rw [applyMatch_mocks_self st j m cid hget] at hj
      cases hj
      have hmt : m.isHeadMock = false := by simpa using hth
      rcases helig with hh | ⟨_, hrecm⟩
      · rw [hh] at hmt
        exact Bool.noConfusion hmt
      · obtain ⟨k, hm, hk, hmh, hmr, hmd⟩ := hrec m.recIdx cid hrecm
        exact ⟨k, hm, applyMatch_keeps_done st j m cid hget hdone hk hmd, hmh,
          by simpa using hmr, hmd⟩
    · rw [applyMatch_mocks_ne st i m cid j hji] at hj
      obtain ⟨k, hm, hk, hmh, hmr, hmd⟩ := htail j t hj hth htd
      exact ⟨k, hm, applyMatch_keeps_done st i m cid hget hdone hk hmd, hmh, hmr, hmd⟩

/-- One handler event preserves well-formedness and both pinning
invariants. -/
theorem step_inv (fuel : Nat) (st : State) (ev : Event)
    (hwf : WFInit st) (hrec : RecInv st) (htail : TailInv st) :
    WFInit (step fuel st ev) ∧ RecInv (step fuel st ev) ∧ TailInv (step fuel st ev) := by
  cases ev with
  | connOpen cid =>
    cases hinit : findFirst (fun m => m.isInitM && !m.done) st.mocks with
    | none =>
      simp only [step, hinit]
      exact ⟨hwf, hrec, htail⟩
    | some im =>
      simp only [step, hinit]
      obtain ⟨hget, hp, hmin⟩ := findFirst_some hinit
      have hpp : im.2.isInitM = true ∧ im.2.done = false := by
        simpa [Bool.and_eq_true, Bool.not_eq_true'] using hp
      have hhead : im.2.isHeadMock = true := hwf im.1 im.2 hget hpp.1
      have hinv := applyMatch_inv
        { st with conns := st.conns ++ [{ cid := cid, recv := [] }] } im.1 im.2 cid
        hget hpp.2 (Or.inl hhead) hrec htail
      exact ⟨applyMatch_wf _ im.1 im.2 cid hget hwf, hinv.1, hinv.2⟩
  | dataArrival cid chunk =>
    cases hfc : findConn st.conns cid with
    | none =>
      simp only [step, hfc]
      exact ⟨hwf, hrec, htail⟩
    | some conn =>
      cases hff : findFirst (fun m => isMatch fuel st.records m (conn.recv ++ chunk) cid)
          st.mocks with
      | none =>
        simp only [step, hfc, hff]
        exact ⟨hwf, hrec, htail⟩
      | some im =>
        simp only [step, hfc, hff]
        obtain ⟨hget, hp, hmin⟩ := findFirst_some hff
        obtain ⟨hni, hnd, hsat, helig⟩ := isMatch_true_elim hp
        have hinv := applyMatch_inv st im.1 im.2 cid hget hnd helig hrec htail
        exact ⟨applyMatch_wf st im.1 im.2 cid hget hwf, hinv.1, hinv.2⟩

/-- A whole trace preserves well-formedness and both pinning invariants. -/
theorem run_inv (fuel : Nat) (evs : List Event) (st : State)
    (hwf : WFInit st) (hrec : RecInv st) (htail : TailInv st) :
    WFInit (run fuel st evs) ∧ RecInv (run fuel st evs) ∧ TailInv (run fuel st evs) := by
  induction evs generalizing st with
  | nil => exact ⟨hwf, hrec, htail⟩
  | cons ev evs ih =>
    obtain ⟨h1, h2, h3⟩ := step_inv fuel st ev hwf hrec htail
    exact ih (step fuel st ev) h1 h2 h3

/-- A pinning record entry changes during an event only because a pending
head mock owning that record is matched by the event (and so transitions to
`done` at its index): only the head's `match` writes the connection into the
record. -/
theorem step_records_write (fuel : Nat) (st : State) (ev : Event) (r : Nat)
    (o o' : Option Nat) (ho : st.records[r]? = some o)
    (ho' : (step fuel st ev).records[r]? = some o') (hne : o' ≠ o) :
    ∃ (k : Nat) (hm : Mock), st.mocks[k]? = some hm ∧ hm.isHeadMock = true ∧
      hm.recIdx = r ∧ hm.done = false ∧
      (step fuel st ev).mocks[k]? = some { hm with done := true } := by
  cases ev with
  | connOpen cid =>
    cases hinit : findFirst (fun m => m.isInitM && !m.done) st.mocks with
    | none =>
      simp only [step, hinit] at ho'
      rw [ho] at ho'
      cases ho'
      exact absurd rfl hne
    | some im =>
      simp only [step, hinit] at ho' ⊢
      obtain ⟨hget, hp, _⟩ := findFirst_some hinit
      have hpp : im.2.isInitM = true ∧ im.2.done = false := by
        simpa [Bool.and_eq_true, Bool.not_eq_true'] using hp
      by_cases hh : im.2.isHeadMock = true
      · by_cases hri : im.2.recIdx = r
        · refine ⟨im.1, im.2, hget, hh, hri, hpp.2, ?_⟩
          exact applyMatch_mocks_self _ im.1 im.2 cid hget
        · have heq : (applyMatch
              { st with conns := st.conns ++ [{ cid := cid, recv := [] }] }
              im.1 im.2 cid).records[r]? = st.records[r]? := by
            show (if im.2.isHeadMock then st.records.set im.2.recIdx (some cid)
              else st.records)[r]? = _
            rw [if_pos hh]
            exact List.getElem?_set_ne (by omega)
          rw [heq, ho] at ho'
          cases ho'
          exact absurd rfl hne
      · have heq : (applyMatch
            { st with conns := st.conns ++ [{ cid := cid, recv := [] }] }
            im.1 im.2 cid).records[r]? = st.records[r]? := by
          show (if im.2.isHeadMock then st.records.set im.2.recIdx (some cid)
            else st.records)[r]? = _
          rw [if_neg hh]
        rw [heq, ho] at ho'
        cases ho'
        exact absurd rfl hne
  | dataArrival cid chunk =>
    cases hfc : findConn st.conns cid with
    | none =>
      simp only [step, hfc] at ho'
      rw [ho] at ho'
      cases ho'
      exact absurd rfl hne
    | some conn =>
      cases hff : findFirst (fun m => isMatch fuel st.records m (conn.recv ++ chunk) cid)
          st.mocks with
      | none =>
        simp only [step, hfc, hff] at ho'
        rw [ho] at ho'
        cases ho'
        exact absurd rfl hne
      | some im =>
        simp only [step, hfc, hff] at ho' ⊢
        obtain ⟨hget, hp, _⟩ := findFirst_some hff
        obtain ⟨hni, hnd, hsat, _⟩ := isMatch_true_elim hp
        by_cases hh : im.2.isHeadMock = true
        · by_cases hri : im.2.recIdx = r
          · refine ⟨im.1, im.2, hget, hh, hri, hnd, ?_⟩
            exact applyMatch_mocks_self st im.1 im.2 cid hget
          · have heq : (applyMatch st im.1 im.2 cid).records[r]? = st.records[r]? := by
              show (if im.2.isHeadMock then st.records.set im.2.recIdx (some cid)
                else st.records)[r]? = _
              rw [if_pos hh]
              exact List.getElem?_set_ne (by omega)
            rw [heq, ho] at ho'
            cases ho'
            exact absurd rfl hne
        · have heq : (applyMatch st im.1 im.2 cid).records[r]? = st.records[r]? := by
            show (if im.2.isHeadMock then st.records.set im.2.recIdx (some cid)
              else st.records)[r]? = _
            rw [if_neg hh]
          rw [heq, ho] at ho'
          cases ho'
          exact absurd rfl hne

end tcp

/-- C7: over any event trace from a state whose buffer for `cid` agrees
with the ghost accumulator, the per-connection receive buffer equals the
byte-exact concatenation of the chunks received on that connection since
the last successful mock match on it (or since it was opened); and at step
granularity, a data arrival on an open connection appends its chunk to the
buffer, which is then reset to empty exactly when the arrival matched a
mock (the reset happens before the response is resolved from the cleared
buffer's predecessor, which is outside the state model). -/
theorem C7_tcp_recv_buffer (fuel : Nat) (cid : Nat) (st : tcp.State) (evs : List tcp.Event)
    (acc : Option (List (List Nat)))
    (hrel : tcp.bufOf st cid = acc.map List.flatten) :
    tcp.bufOf (tcp.run fuel st evs) cid =
      (tcp.chunksSince fuel cid st evs acc).map List.flatten ∧
    (∀ (chunk buf : List Nat), tcp.bufOf st cid = some buf →
      tcp.bufOf (tcp.step fuel st (.dataArrival cid chunk)) cid =
        some (if tcp.matchedOnData fuel st cid (buf ++ chunk) then [] else buf ++ chunk)) :=
  ⟨tcp.run_buffer_spec fuel cid evs st acc hrel,
    fun chunk buf h => tcp.step_data_buffer fuel st cid chunk buf h⟩

/-- C7 witness: the empty mock set, one connection opened and one chunk
delivered. -/
theorem C7_witness :
    tcp.bufOf (tcp.run 1 ⟨[], [], []⟩ [.connOpen 0, .dataArrival 0 [1, 2]]) 0 =
      (tcp.chunksSince 1 0 ⟨[], [], []⟩ [.connOpen 0, .dataArrival 0 [1, 2]] none).map
        List.flatten ∧
    (∀ (chunk buf : List Nat), tcp.bufOf ⟨[], [], []⟩ 0 = some buf →
      tcp.bufOf (tcp.step 1 ⟨[], [], []⟩ (.dataArrival 0 chunk)) 0 =
        some (if tcp.matchedOnData 1 ⟨[], [], []⟩ 0 (buf ++ chunk) then []
          else buf ++ chunk)) :=
  C7_tcp_recv_buffer 1 0 ⟨[], [], []⟩ [.connOpen 0, .dataArrival 0 [1, 2]] none rfl

/-- C4: over any event trace from a well-formed all-pending initial state
with unwritten pinning records, every matched tail mock has a matched head
sharing its pinning record (so a tail cannot move from pending to matched
before its head has); a tail is eligible on a data arrival only when its
shared pinning record already points to the connection delivering the data;
and a record entry is only ever written by the match of a pending head mock
owning it. -/
theorem C4_tcp_tail_requires_head (fuel : Nat) (st0 : tcp.State) (evs : List tcp.Event)
    (hwf : tcp.WFInit st0)
    (hrec0 : ∀ (r : Nat) (o : Option Nat), st0.records[r]? = some o → o = none)
    (hpend : ∀ (j : Nat) (m : tcp.Mock), st0.mocks[j]? = some m → m.done = false) :
    tcp.TailInv (tcp.run fuel st0 evs) ∧
    (∀ (records : List (Option Nat)) (m : tcp.Mock) (bytes : List Nat) (cid : Nat),
      m.isHeadMock = false → tcp.isMatch fuel records m bytes cid = true →
      records[m.recIdx]? = some (some cid)) ∧
    (∀ (st : tcp.State) (ev : tcp.Event) (r : Nat) (o o' : Option Nat),
      st.records[r]? = some o → (tcp.step fuel st ev).records[r]? = some o' → o' ≠ o →
      ∃ (k : Nat) (hm : tcp.Mock), st.mocks[k]? = some hm ∧ hm.isHeadMock = true ∧
        hm.recIdx = r ∧ hm.done = false ∧
        (tcp.step fuel st ev).mocks[k]? = some { hm with done := true }) := by
  refine ⟨?_, ?_, ?_⟩
  · have hrec : tcp.RecInv st0 := by
      intro r c hr
      exact absurd (hrec0 r (some c) hr) (by simp)
    have htail : tcp.TailInv st0 := by
      intro j t hj hth htd
      rw [hpend j t hj] at htd
      exact Bool.noConfusion htd
    exact (tcp.run_inv fuel evs st0 hwf hrec htail).2.2
  · intro records m bytes cid hh hm
    obtain ⟨_, _, _, helig⟩ := tcp.isMatch_true_elim hm
    rcases helig with h1 | ⟨_, h2⟩
    · rw [h1] at hh
      exact Bool.noConfusion hh
    · exact h2
  · intro st ev r o o' h1 h2 h3
    exact tcp.step_records_write fuel st ev r o o' h1 h2 h3

/-- A defined (non-`undefined`) value is not flagged by `isUndefined`. -/
theorem isUndefined_eq_false {v : JSVal} (h : v ≠ .undef) : lib.isUndefined v = false := by
  cases v <;> simp_all [lib.isUndefined]

/-- Whether `pinnedToPred` accepts a value. -/
def okPinned (v : JSVal) : Bool := lib.isUndefined v || lib.isPlainObject v

/-- `pinnedToPred` evaluated: identity conformance, errors iff not accepted. -/
theorem pinnedToPred_eval (v : JSVal) (p : List String) :
    schema.pinnedToPred v p =
      (v, if okPinned v then []
        else validate.error p "must satisfy one of the listed predicates") := by
  cases v <;> rfl

/-- Whether `optBufferable` accepts a value. -/
def okBufferable (v : JSVal) : Bool := lib.isString v || lib.isBuffer v || lib.isUndefined v

/-- `optBufferable` evaluated: identity conformance, errors iff not accepted. -/
theorem optBufferable_eval (v : JSVal) (p : List String) :
    schema.optBufferable v p =
      (v, if okBufferable v then []
        else validate.error p "if defined must be string or buffer") := by
  cases v <;> rfl

/-- Whether `optComparable` accepts a value. -/
def okComparable (v : JSVal) : Bool :=
  lib.isString v || lib.isBuffer v || lib.isRegExp v || lib.isFunction v || lib.isUndefined v

/-- What `optComparable` conforms a value to: callables are wrapped for
late re-validation against `isBoolean`, everything else is kept. -/
def conformedComparable (v : JSVal) : JSVal :=
  if lib.isFunction v then .fnWrapped v .lsBoolean else v

/-- `optComparable` evaluated. -/
theorem optComparable_eval (v : JSVal) (p : List String) :
    schema.optComparable v p =
      (conformedComparable v, if okComparable v then []
        else validate.error p
          "if defined must be string, buffer, regular expression, or function") := by
  cases v <;> rfl

/-- The conformed value of the TCP `res` schema is `undefined` exactly when
the input was. -/
theorem resTCP_conformed_undef (v : JSVal) (p : List String) :
    (schema.resTCP v p).1 = .undef ↔ v = .undef := by
  cases v <;>
    simp [schema.resTCP, schema.resObjTCP, validate.branch, validate.branchGo,
      validate.obj, validate.isPlainObject, validate.isFunction, validate.always,
      schema.optBufferable, validate.aliasP, validate.or, validate.orGo,
      validate.isString, validate.isBuffer, validate.isUndefined, validate.error,
      lib.isPlainObject, lib.isFunction, lib.isString, lib.isBuffer, lib.isUndefined]

/-- `exclusive` conforms to its input. -/
theorem exclusive_conformed (ga gb : List String) (v : JSVal) (p : List String) :
    (validate.exclusive ga gb v p).1 = v := by
  cases v <;> try rfl
  all_goals
    simp only [validate.exclusive]
    split <;> rfl

/-- `conform` through one `and` step: continue on success, reject on
errors. -/
theorem conform_andGo_cons (q : VPred) (ps : List VPred) (original conformed : JSVal)
    (p : List String) :
    validate.conform (validate.andGo (q :: ps) original conformed p) =
      if (q conformed p).2.isEmpty
      then validate.conform (validate.andGo ps original (q conformed p).1 p)
      else none := by
  show validate.conform
    (if (q conformed p).2.isEmpty then validate.andGo ps original (q conformed p).1 p
      else (original, (q conformed p).2)) = _
  by_cases hq : (q conformed p).2.isEmpty
  · rw [if_pos hq, if_pos hq]
  · rw [if_neg hq, if_neg hq]
    have hne : (q conformed p).2 ≠ [] := by simpa [List.isEmpty_iff] using hq
    simp [validate.conform, hne]

/-- `conform` of an exhausted `and` chain. -/
theorem conform_andGo_nil (original conformed : JSVal) (p : List String) :
    validate.conform (validate.andGo [] original conformed p) = some conformed := rfl

/-- When a key of each group is defined on the object, `exclusive`
reports an error. -/
theorem exclusive_errors_ne (ga gb : List String) (fs : List (String × JSVal))
    (p : List String) (ka kb : String) (hka : ka ∈ ga) (hkb : kb ∈ gb)
    (ha : lookupJS fs ka ≠ .undef) (hb : lookupJS fs kb ≠ .undef) :
    (validate.exclusive ga gb (.objV fs) p).2 ≠ [] := by
  have h1 : 0 < (ga.filter (fun e => !lib.isUndefined (lookupJS fs e))).length := by
    have hmem : ka ∈ ga.filter (fun e => !lib.isUndefined (lookupJS fs e)) :=
      List.mem_filter.mpr ⟨hka, by simp [isUndefined_eq_false ha]⟩
    exact List.length_pos.mpr (List.ne_nil_of_mem hmem)
  have h2 : 0 < (gb.filter (fun e => !lib.isUndefined (lookupJS fs e))).length := by
    have hmem : kb ∈ gb.filter (fun e => !lib.isUndefined (lookupJS fs e)) :=
      List.mem_filter.mpr ⟨hkb, by simp [isUndefined_eq_false hb]⟩
    exact List.length_pos.mpr (List.ne_nil_of_mem hmem)
  simp [validate.exclusive, h1, h2, validate.error]

/-- The TCP mock field schema evaluated on a four-field declaration:
conformance keeps the defined conformed fields in schema order, and the
errors are the concatenation of the four fields' errors. -/
theorem obj4_eval (pt i rq rs : JSVal) :
    validate.obj schema.mockFields
      (.objV [("_pinnedTo", pt), ("init", i), ("req", rq), ("res", rs)]) ["options"] =
    (.objV
      ((if lib.isUndefined pt then [] else [("_pinnedTo", pt)]) ++
        ((if lib.isUndefined i then [] else [("init", i)]) ++
          ((if lib.isUndefined (conformedComparable rq) then []
            else [("req", conformedComparable rq)]) ++
            (if lib.isUndefined (schema.resTCP rs ["options", "res"]).1 then []
              else [("res", (schema.resTCP rs ["options", "res"]).1)])))),
      (if okPinned pt then []
        else validate.error ["options", "_pinnedTo"]
          "must satisfy one of the listed predicates") ++
        ((if okBufferable i then []
          else validate.error ["options", "init"] "if defined must be string or buffer") ++
          ((if okComparable rq then []
            else validate.error ["options", "req"]
              "if defined must be string, buffer, regular expression, or function") ++
            (schema.resTCP rs ["options", "res"]).2))) := by
  simp only [validate.obj, schema.mockFields, List.map_cons, List.map_nil,
    lib.isPlainObject, if_true, getField, lookupJS, List.find?, pinnedToPred_eval,
    optBufferable_eval, optComparable_eval]
  by_cases hpt : lib.isUndefined pt <;> by_cases hi : lib.isUndefined i <;>
    by_cases hrq : lib.isUndefined (conformedComparable rq) <;>
    by_cases hrs : lib.isUndefined (schema.resTCP rs ["options", "res"]).1 <;>
    simp [hpt, hi, hrq, hrs, List.filter]

/-- An empty list has `isEmpty` false when it is provably non-nil. -/
theorem isEmpty_false_of_ne {α : Type} {l : List α} (h : l ≠ []) : l.isEmpty = false := by
  cases l with
  | nil => exact absurd rfl h
  | cons a t => rfl

/-- `isEmpty` of a provably nil list. -/
theorem isEmpty_true_of_eq {α : Type} {l : List α} (h : l = []) : l.isEmpty = true := by
  rw [h]
  rfl

/-- `okBufferable` accepts the absent value. -/
theorem okBufferable_undef : okBufferable .undef = true := rfl

/-- `okPinned` accepts the absent value. -/
theorem okPinned_undef : okPinned .undef = true := rfl

/-- `okComparable` accepts the absent value. -/
theorem okComparable_undef : okComparable .undef = true := rfl

/-- `isUndefined` holds of the absent value. -/
theorem isUndefined_undef : lib.isUndefined .undef = true := rfl

/-- `conformedComparable` is `undefined` exactly when its input was. -/
theorem conformedComparable_undef (v : JSVal) :
    conformedComparable v = .undef ↔ v = .undef := by
  cases v <;> simp [conformedComparable, lib.isFunction]

/-- On an object defining both `init` and `_pinnedTo`, the
`connectionPinned` alias reports its error. -/
theorem connectionPinned_errors_ne (fs : List (String × JSVal)) (p : List String)
    (h1 : lookupJS fs "init" ≠ .undef) (h2 : lookupJS fs "_pinnedTo" ≠ .undef) :
    (schema.connectionPinned (.objV fs) p).2 ≠ [] := by
  have hinner := exclusive_errors_ne ["init"] ["_pinnedTo"] fs p "init" "_pinnedTo"
    (by simp) (by simp) h1 h2
  have hie := isEmpty_false_of_ne hinner
  simp [schema.connectionPinned, validate.aliasP, hie, validate.error]

/-- C8 (amended): validation enforces *at most* one of `init` or
`(req, res)` populated — a declaration defining `init` together with `req`
or `res` is rejected with a `ValidationError`, and a pinned child mock
(carrying `_pinnedTo`) defining `init` is rejected — while a declaration
populating neither is accepted (see the counterexample). -/
theorem C8_tcp_mock_exclusivity (pt i rq rs : JSVal) (hInit : i ≠ .undef) :
    ((rq ≠ .undef ∨ rs ≠ .undef) →
      conformMock (.objV [("_pinnedTo", pt), ("init", i), ("req", rq), ("res", rs)])
        = none) ∧
    (pt ≠ .undef →
      conformMock (.objV [("_pinnedTo", pt), ("init", i), ("req", rq), ("res", rs)])
        = none) := by
  have hred : conformMock (.objV [("_pinnedTo", pt), ("init", i), ("req", rq), ("res", rs)]) =
      validate.conform (validate.andGo
        [validate.obj schema.mockFields, validate.exclusive ["init"] ["req", "res"],
          schema.connectionPinned]
        (.objV [("_pinnedTo", pt), ("init", i), ("req", rq), ("res", rs)])
        (.objV [("_pinnedTo", pt), ("init", i), ("req", rq), ("res", rs)]) ["options"]) := rfl
  rw [hred, conform_andGo_cons]
  by_cases hobj : (validate.obj schema.mockFields
      (.objV [("_pinnedTo", pt), ("init", i), ("req", rq), ("res", rs)]) ["options"]).2 = []
  case neg =>
    rw [isEmpty_false_of_ne hobj]
    simp
  case pos =>
    rw [isEmpty_true_of_eq hobj]
    simp only [if_true]
    rw [conform_andGo_cons]
    obtain ⟨cf, hconf, hlookI, hlookPin, hlookR, hlookS⟩ : ∃ cf,
        (validate.obj schema.mockFields
          (.objV [("_pinnedTo", pt), ("init", i), ("req", rq), ("res", rs)]) ["options"]).1
          = .objV cf ∧
        lookupJS cf "init" = i ∧
        (pt ≠ .undef → lookupJS cf "_pinnedTo" = pt) ∧
        (rq ≠ .undef → lookupJS cf "req" ≠ .undef) ∧
        (rs ≠ .undef → lookupJS cf "res" ≠ .undef) := by
      refine ⟨_, by rw [obj4_eval], ?_, ?_, ?_, ?_⟩
      · by_cases hpt' : lib.isUndefined pt = true <;>
          simp [lookupJS, List.find?, hpt', isUndefined_eq_false hInit]
      · intro h
        simp [lookupJS, List.find?, isUndefined_eq_false h]
      · intro h
        have hcc : conformedComparable rq ≠ .undef := fun he =>
          h ((conformedComparable_undef rq).mp he)
        by_cases hpt' : lib.isUndefined pt = true <;>
          simp [lookupJS, List.find?, hpt', isUndefined_eq_false hInit,
            isUndefined_eq_false hcc, hcc]
      · intro h
        have hr4 : (schema.resTCP rs ["options", "res"]).1 ≠ .undef := fun he =>
          h ((resTCP_conformed_undef rs ["options", "res"]).mp he)
        by_cases hpt' : lib.isUndefined pt = true <;>
          by_cases hrq' : lib.isUndefined (conformedComparable rq) = true <;>
          simp [lookupJS, List.find?, hpt', hrq', isUndefined_eq_false hInit,
            isUndefined_eq_false hr4, hr4]
    constructor
    · intro hrr
      have hexne : (validate.exclusive ["init"] ["req", "res"]
          (validate.obj schema.mockFields
            (.objV [("_pinnedTo", pt), ("init", i), ("req", rq), ("res", rs)])
            ["options"]).1 ["options"]).2 ≠ [] := by
        rw [hconf]
        rcases hrr with h | h
        · exact exclusive_errors_ne _ _ _ _ "init" "req" (by simp) (by simp)
            (by rw [hlookI]; exact hInit) (hlookR h)
        · exact exclusive_errors_ne _ _ _ _ "init" "res" (by simp) (by simp)
            (by rw [hlookI]; exact hInit) (hlookS h)
      rw [isEmpty_false_of_ne hexne]
      simp
    · intro hpt
      by_cases hex : (validate.exclusive ["init"] ["req", "res"]
          (validate.obj schema.mockFields
            (.objV [("_pinnedTo", pt), ("init", i), ("req", rq), ("res", rs)])
            ["options"]).1 ["options"]).2 = []
      · rw [isEmpty_true_of_eq hex]
        simp only [if_true]
        rw [conform_andGo_cons]
        have hcpne : (schema.connectionPinned
            ((validate.exclusive ["init"] ["req", "res"]
              (validate.obj schema.mockFields
                (.objV [("_pinnedTo", pt), ("init", i), ("req", rq), ("res", rs)])
                ["options"]).1 ["options"]).1) ["options"]).2 ≠ [] := by
          rw [exclusive_conformed, hconf]
          exact connectionPinned_errors_ne _ _ (by rw [hlookI]; exact hInit)
            (by rw [hlookPin hpt]; exact hpt)
        rw [isEmpty_false_of_ne hcpne]
        simp
      · rw [isEmpty_false_of_ne hex]
        simp

/-- C8, as stated, is refuted here: the empty declaration — populating
neither `init` nor `req`/`res` — passes validation, so "exactly one of
`init` or `(req, res)` is populated" is not enforced; only the mutual
exclusions are. -/
theorem C8_counterexample :
    conformMock (.objV []) = some (.objV []) ∧
    getField (.objV []) "init" = .undef ∧
    getField (.objV []) "req" = .undef ∧
    getField (.objV []) "res" = .undef :=
  ⟨rfl, rfl, rfl, rfl⟩

/-- C8 witness: `init` with `req` is rejected; a pinned child declaring
`init` is rejected. -/
theorem C8_witness :
    conformMock (.objV [("_pinnedTo", .undef), ("init", .strV "a"), ("req", .strV "b"),
      ("res", .undef)]) = none ∧
    conformMock (.objV [("_pinnedTo", .objV []), ("init", .strV "a"), ("req", .undef),
      ("res", .undef)]) = none :=
  ⟨(C8_tcp_mock_exclusivity .undef (.strV "a") (.strV "b") .undef (by simp)).1
      (Or.inl (by simp)),
    (C8_tcp_mock_exclusivity (.objV []) (.strV "a") .undef .undef (by simp)).2 (by simp)⟩

/-- Values containing no callables anywhere (so the validator performs no
late-binding wrapping on them). -/
inductive FnFree : JSVal → Prop where
  | undef : FnFree .undef
  | boolV (b : Bool) : FnFree (.boolV b)
  | numV (n : Int) : FnFree (.numV n)
  | strV (s : String) : FnFree (.strV s)
  | bufV (bs : List Nat) : FnFree (.bufV bs)
  | regexV (t : String → Bool) : FnFree (.regexV t)
  | objV (fs : List (String × JSVal)) : (∀ kv ∈ fs, FnFree kv.2) → FnFree (.objV fs)
  | arrV (es : List JSVal) : (∀ e ∈ es, FnFree e) → FnFree (.arrV es)

/-- A callable-free value is not a callable. -/
theorem fnFree_not_function {v : JSVal} (h : FnFree v) : lib.isFunction v = false := by
  cases h <;> rfl

/-- Property lookup on a callable-free object yields a callable-free value. -/
theorem fnFree_lookup {fs : List (String × JSVal)} (h : FnFree (.objV fs)) (k : String) :
    FnFree (lookupJS fs k) := by
  cases h with
  | objV fs hf =>
    unfold lookupJS
    cases hfind : fs.find? (fun kv => kv.1 == k) with
    | none => exact FnFree.undef
    | some kv => exact hf kv (List.mem_of_find?_eq_some hfind)

/-- Whether `delay` accepts a value (positive integer or absent). -/
def okDelay : JSVal → Bool
  | .numV n => decide (0 ≤ n)
  | .undef => true
  | _ => false

/-- Whether `destroySocket` accepts a value (boolean or absent). -/
def okDestroy : JSVal → Bool
  | .boolV _ => true
  | .undef => true
  | _ => false

/-- `okDelay` accepts the absent value. -/
theorem okDelay_undef : okDelay .undef = true := rfl

/-- `okDestroy` accepts the absent value. -/
theorem okDestroy_undef : okDestroy .undef = true := rfl

/-- `funcOptBufferable` on a callable-free value: identity conformance,
errors iff not bufferable. -/
theorem funcOptBufferable_eval_fnFree (v : JSVal) (p : List String) (hff : FnFree v) :
    schema.funcOptBufferable v p =
      (v, if okBufferable v then []
        else validate.error p "if defined must be string, buffer, or function returning same")
    := by
  cases v with
  | fnConst r => cases hff
  | fnRaise => cases hff
  | fnIsStr s => cases hff
  | fnWrapped f ls => cases hff
  | undef => rfl
  | boolV b => rfl
  | numV n => rfl
  | strV s => rfl
  | bufV bs => rfl
  | regexV t => rfl
  | objV fs => rfl
  | arrV es => rfl

/-- `delay` on a callable-free value: identity conformance, errors iff not
a positive integer or absent. -/
theorem delay_eval_fnFree (v : JSVal) (p : List String) (hff : FnFree v) :
    schema.delay v p =
      (v, if okDelay v then []
        else validate.error p "if defined must be positive integer or function returning same")
    := by
  cases v with
  | numV n =>
    by_cases h : (0 : Int) ≤ n <;>
      simp [schema.delay, validate.branch, validate.branchGo, schema.isPositiveInt,
        validate.and, validate.andGo, validate.isInteger, schema.isPositive,
        validate.isUndefined, validate.isFunction, validate.always, validate.error,
        lib.isInteger, lib.isUndefined, lib.isFunction, okDelay, h]
  | fnConst r => cases hff
  | fnRaise => cases hff
  | fnIsStr s => cases hff
  | fnWrapped f ls => cases hff
  | undef => rfl
  | boolV b => rfl
  | strV s => rfl
  | bufV bs => rfl
  | regexV t => rfl
  | objV fs => rfl
  | arrV es => rfl

/-- `destroySocket` on a callable-free value: identity conformance, errors
iff not a boolean or absent. -/
theorem destroySocket_eval_fnFree (v : JSVal) (p : List String) (hff : FnFree v) :
    schema.destroySocket v p =
      (v, if okDestroy v then []
        else validate.error p "if defined must be boolean or function returning same") := by
  cases v with
  | fnConst r => cases hff
  | fnRaise => cases hff
  | fnIsStr s => cases hff
  | fnWrapped f ls => cases hff
  | undef => rfl
  | boolV b => rfl
  | numV n => rfl
  | strV s => rfl
  | bufV bs => rfl
  | regexV t => rfl
  | objV fs => rfl
  | arrV es => rfl

/-- A callable-free value is conformed to itself by `optComparable`. -/
theorem conformedComparable_fnFree {v : JSVal} (hff : FnFree v) :
    conformedComparable v = v := by
  simp [conformedComparable, fnFree_not_function hff]

/-- `connectionPinned` conforms to its input. -/
theorem connectionPinned_conformed (v : JSVal) (p : List String) :
    (schema.connectionPinned v p).1 = v := by
  simp [schema.connectionPinned, validate.aliasP, exclusive_conformed]

/-- The TCP `resObj` schema evaluated on a callable-free object: defined
conformed fields are kept in schema order, errors concatenate per field. -/
theorem resObjTCP_eval (fs : List (String × JSVal)) (p : List String)
    (hff : FnFree (.objV fs)) :
    schema.resObjTCP (.objV fs) p =
      (.objV ((if lib.isUndefined (lookupJS fs "body") then []
          else [("body", lookupJS fs "body")]) ++
        ((if lib.isUndefined (lookupJS fs "bodyDelay") then []
          else [("bodyDelay", lookupJS fs "bodyDelay")]) ++
          (if lib.isUndefined (lookupJS fs "destroySocket") then []
            else [("destroySocket", lookupJS fs "destroySocket")]))),
      (if okBufferable (lookupJS fs "body") then []
        else validate.error (p ++ ["body"])
          "if defined must be string, buffer, or function returning same") ++
        ((if okDelay (lookupJS fs "bodyDelay") then []
          else validate.error (p ++ ["bodyDelay"])
            "if defined must be positive integer or function returning same") ++
          (if okDestroy (lookupJS fs "destroySocket") then []
            else validate.error (p ++ ["destroySocket"])
              "if defined must be boolean or function returning same"))) := by
  simp only [schema.resObjTCP, validate.obj, lib.isPlainObject, if_true, List.map_cons,
    List.map_nil, getField,
    funcOptBufferable_eval_fnFree _ _ (fnFree_lookup hff "body"),
    delay_eval_fnFree _ _ (fnFree_lookup hff "bodyDelay"),
    destroySocket_eval_fnFree _ _ (fnFree_lookup hff "destroySocket")]
  by_cases h1 : lib.isUndefined (lookupJS fs "body") = true <;>
    by_cases h2 : lib.isUndefined (lookupJS fs "bodyDelay") = true <;>
    by_cases h3 : lib.isUndefined (lookupJS fs "destroySocket") = true <;>
    simp [h1, h2, h3, List.filter]

/-- The TCP mock field schema evaluated on an arbitrary object. -/
theorem mockFields_eval (fs : List (String × JSVal)) (p : List String) :
    validate.obj schema.mockFields (.objV fs) p =
      (.objV ((if lib.isUndefined (lookupJS fs "_pinnedTo") then []
          else [("_pinnedTo", lookupJS fs "_pinnedTo")]) ++
        ((if lib.isUndefined (lookupJS fs "init") then []
          else [("init", lookupJS fs "init")]) ++
          ((if lib.isUndefined (conformedComparable (lookupJS fs "req")) then []
            else [("req", conformedComparable (lookupJS fs "req"))]) ++
            (if lib.isUndefined ((schema.resTCP (lookupJS fs "res") (p ++ ["res"])).1)
              then []
              else [("res", (schema.resTCP (lookupJS fs "res") (p ++ ["res"])).1)])))),
      (if okPinned (lookupJS fs "_pinnedTo") then []
        else validate.error (p ++ ["_pinnedTo"])
          "must satisfy one of the listed predicates") ++
        ((if okBufferable (lookupJS fs "init") then []
          else validate.error (p ++ ["init"]) "if defined must be string or buffer") ++
          ((if okComparable (lookupJS fs "req") then []
            else validate.error (p ++ ["req"])
              "if defined must be string, buffer, regular expression, or function") ++
            (schema.resTCP (lookupJS fs "res") (p ++ ["res"])).2))) := by
  simp only [validate.obj, schema.mockFields, lib.isPlainObject, if_true, List.map_cons,
    List.map_nil, getField, pinnedToPred_eval, optBufferable_eval, optComparable_eval]
  by_cases h1 : lib.isUndefined (lookupJS fs "_pinnedTo") = true <;>
    by_cases h2 : lib.isUndefined (lookupJS fs "init") = true <;>
    by_cases h3 : lib.isUndefined (conformedComparable (lookupJS fs "req")) = true <;>
    by_cases h4 :
      lib.isUndefined ((schema.resTCP (lookupJS fs "res") (p ++ ["res"])).1) = true <;>
    simp [h1, h2, h3, h4, List.filter]

/-- The conformed value of the TCP `res` schema is callable-free when the
input is. -/
theorem resTCP_conformed_fnFree (v : JSVal) (p : List String) (hff : FnFree v) :
    FnFree ((schema.resTCP v p).1) := by
  cases v with
  | objV fs =>
    rw [show schema.resTCP (.objV fs) p = schema.resObjTCP (.objV fs) p from rfl,
      resObjTCP_eval fs p hff]
    refine FnFree.objV _ ?_
    intro kv hkv
    have hmem : kv = ("body", lookupJS fs "body") ∨
        kv = ("bodyDelay", lookupJS fs "bodyDelay") ∨
        kv = ("destroySocket", lookupJS fs "destroySocket") := by
      by_cases h1 : lib.isUndefined (lookupJS fs "body") = true <;>
        by_cases h2 : lib.isUndefined (lookupJS fs "bodyDelay") = true <;>
        by_cases h3 : lib.isUndefined (lookupJS fs "destroySocket") = true <;>
        simp [h1, h2, h3] at hkv <;> tauto
    rcases hmem with rfl | rfl | rfl
    · exact fnFree_lookup hff "body"
    · exact fnFree_lookup hff "bodyDelay"
    · exact fnFree_lookup hff "destroySocket"
  | fnConst r => cases hff
  | fnRaise => cases hff
  | fnIsStr s => cases hff
  | fnWrapped f ls => cases hff
  | undef => exact hff
  | boolV b => exact hff
  | numV n => exact hff
  | strV s => exact hff
  | bufV bs => exact hff
  | regexV t => exact hff
  | arrV es => exact hff

/-- The TCP `res` schema is idempotent on callable-free accepted values. -/
theorem resTCP_idem (v : JSVal) (p : List String) (hff : FnFree v)
    (hok : (schema.resTCP v p).2 = []) :
    schema.resTCP ((schema.resTCP v p).1) p = ((schema.resTCP v p).1, []) := by
  cases v with
  | undef => rfl
  | strV s => rfl
  | bufV bs => rfl
  | boolV b =>
    simp [show (schema.resTCP (.boolV b) p).2 = validate.error p
      "if defined must be object, string, or buffer or function returning same" from rfl,
      validate.error] at hok
  | numV n =>
    simp [show (schema.resTCP (.numV n) p).2 = validate.error p
      "if defined must be object, string, or buffer or function returning same" from rfl,
      validate.error] at hok
  | regexV t =>
    simp [show (schema.resTCP (.regexV t) p).2 = validate.error p
      "if defined must be object, string, or buffer or function returning same" from rfl,
      validate.error] at hok
  | arrV es =>
    simp [show (schema.resTCP (.arrV es) p).2 = validate.error p
      "if defined must be object, string, or buffer or function returning same" from rfl,
      validate.error] at hok
  | fnConst r => cases hff
  | fnRaise => cases hff
  | fnIsStr s => cases hff
  | fnWrapped f ls => cases hff
  | objV fs =>
    have hcf : FnFree ((schema.resTCP (.objV fs) p).1) := resTCP_conformed_fnFree _ p hff
    rw [show schema.resTCP (.objV fs) p = schema.resObjTCP (.objV fs) p from rfl] at hok hcf ⊢
    rw [resObjTCP_eval fs p hff] at hok hcf ⊢
    simp only [List.append_eq_nil] at hok
    obtain ⟨e1, e2, e3⟩ := hok
    have ok1 : okBufferable (lookupJS fs "body") = true := by
      by_contra h
      simp [h, validate.error] at e1
    have ok2 : okDelay (lookupJS fs "bodyDelay") = true := by
      by_contra h
      simp [h, validate.error] at e2
    have ok3 : okDestroy (lookupJS fs "destroySocket") = true := by
      by_contra h
      simp [h, validate.error] at e3
    generalize hB : lookupJS fs "body" = B at *
    generalize hD : lookupJS fs "bodyDelay" = D at *
    generalize hS : lookupJS fs "destroySocket" = S at *
    rw [show ∀ cf : List (String × JSVal), schema.resTCP (.objV cf) p
        = schema.resObjTCP (.objV cf) p from fun cf => rfl]
    rw [resObjTCP_eval _ p hcf]
    by_cases h1 : lib.isUndefined B = true <;>
      by_cases h2 : lib.isUndefined D = true <;>
      by_cases h3 : lib.isUndefined S = true <;>
      simp [h1, h2, h3, lookupJS, List.find?, ok1, ok2, ok3, okBufferable_undef,
        okDelay_undef, okDestroy_undef, isUndefined_undef]

/-- `conformedComparable` of the absent value. -/
theorem conformedComparable_undefv : conformedComparable .undef = .undef := rfl

/-- The TCP `res` schema accepts the absent value unchanged. -/
theorem resTCP_undefv (p : List String) : schema.resTCP .undef p = (.undef, []) := rfl

/-- C9 (amended): validation of a TCP mock declaration is idempotent on
callable-free declarations it accepts: re-validating the conformed value
reproduces that value exactly, with no errors. (On declarations containing a
callable, idempotence fails: conforming wraps the callable, and re-validating
wraps it again — see the counterexample.) -/
theorem C9_validation_idempotent (x : JSVal) (hff : FnFree x)
    (hok : (schema.mockSchema x ["options"]).2 = []) :
    schema.mockSchema ((schema.mockSchema x ["options"]).1) ["options"]
      = ((schema.mockSchema x ["options"]).1, []) := by
  cases x with
  | undef => rfl
  | boolV b =>
    simp [show (schema.mockSchema (.boolV b) ["options"]).2
      = validate.error ["options"] "if defined must be plain object" from rfl,
      validate.error] at hok
  | numV n =>
    simp [show (schema.mockSchema (.numV n) ["options"]).2
      = validate.error ["options"] "if defined must be plain object" from rfl,
      validate.error] at hok
  | strV s =>
    simp [show (schema.mockSchema (.strV s) ["options"]).2
      = validate.error ["options"] "if defined must be plain object" from rfl,
      validate.error] at hok
  | bufV bs =>
    simp [show (schema.mockSchema (.bufV bs) ["options"]).2
      = validate.error ["options"] "if defined must be plain object" from rfl,
      validate.error] at hok
  | regexV t =>
    simp [show (schema.mockSchema (.regexV t) ["options"]).2
      = validate.error ["options"] "if defined must be plain object" from rfl,
      validate.error] at hok
  | arrV es =>
    simp [show (schema.mockSchema (.arrV es) ["options"]).2
      = validate.error ["options"] "if defined must be plain object" from rfl,
      validate.error] at hok
  | fnConst r => cases hff
  | fnRaise => cases hff
  | fnIsStr s => cases hff
  | fnWrapped f ls => cases hff
  | objV fs =>
    have hred : ∀ gs : List (String × JSVal), schema.mockSchema (.objV gs) ["options"] =
        validate.andGo [validate.obj schema.mockFields,
          validate.exclusive ["init"] ["req", "res"], schema.connectionPinned]
          (.objV gs) (.objV gs) ["options"] := fun gs => rfl
    rw [hred] at hok ⊢
    have hstage1 : ∀ gs : List (String × JSVal), validate.andGo
        [validate.obj schema.mockFields, validate.exclusive ["init"] ["req", "res"],
          schema.connectionPinned] (.objV gs) (.objV gs) ["options"] =
      (if (validate.obj schema.mockFields (.objV gs) ["options"]).2.isEmpty then
        validate.andGo
          [validate.exclusive ["init"] ["req", "res"], schema.connectionPinned]
          (.objV gs) (validate.obj schema.mockFields (.objV gs) ["options"]).1 ["options"]
      else ((.objV gs), (validate.obj schema.mockFields (.objV gs) ["options"]).2)) :=
      fun gs => rfl
    rw [hstage1] at hok ⊢
    by_cases hO2 : (validate.obj schema.mockFields (.objV fs) ["options"]).2 = []
    case neg =>
      rw [isEmpty_false_of_ne hO2] at hok
      simp at hok
      exact absurd hok hO2
    case pos =>
      rw [isEmpty_true_of_eq hO2] at hok ⊢
      simp only [if_true] at hok ⊢
      have hstage2 : ∀ x v : JSVal, validate.andGo
          [validate.exclusive ["init"] ["req", "res"], schema.connectionPinned]
          x v ["options"] =
        (if (validate.exclusive ["init"] ["req", "res"] v ["options"]).2.isEmpty then
          validate.andGo [schema.connectionPinned] x
            (validate.exclusive ["init"] ["req", "res"] v ["options"]).1 ["options"]
        else (x,
          (validate.exclusive ["init"] ["req", "res"] v ["options"]).2)) := fun x v => rfl
      rw [hstage2] at hok ⊢
      by_cases hX2 : (validate.exclusive ["init"] ["req", "res"]
          (validate.obj schema.mockFields (.objV fs) ["options"]).1 ["options"]).2 = []
      case neg =>
        rw [isEmpty_false_of_ne hX2] at hok
        simp at hok
        exact absurd hok hX2
      case pos =>
        rw [isEmpty_true_of_eq hX2] at hok ⊢
        simp only [if_true] at hok ⊢
        have hstage3 : ∀ x v : JSVal, validate.andGo [schema.connectionPinned]
            x v ["options"] =
          (if (schema.connectionPinned v ["options"]).2.isEmpty then
            ((schema.connectionPinned v ["options"]).1, [])
          else (x, (schema.connectionPinned v ["options"]).2)) := fun x v => rfl
        rw [hstage3] at hok ⊢
        by_cases hC2 : (schema.connectionPinned
            (validate.exclusive ["init"] ["req", "res"]
              (validate.obj schema.mockFields (.objV fs) ["options"]).1 ["options"]).1
            ["options"]).2 = []
        case neg =>
          rw [isEmpty_false_of_ne hC2] at hok
          simp at hok
          exact absurd hok hC2
        case pos =>
          rw [isEmpty_true_of_eq hC2] at hok ⊢
          simp only [if_true, connectionPinned_conformed, exclusive_conformed] at hok ⊢
          clear hok
          rw [exclusive_conformed] at hC2
          -- everything now speaks about the first conformed object
          rw [mockFields_eval fs ["options"]] at hO2 hX2 hC2 ⊢
          simp only [] at hX2 hC2 ⊢
          -- facts about the four fields from the first pass
          simp only [List.append_eq_nil] at hO2
          obtain ⟨f1, f2, f34⟩ := hO2
          obtain ⟨f3, f4⟩ := f34
          have ok1 : okPinned (lookupJS fs "_pinnedTo") = true := by
            by_contra h
            simp [h, validate.error] at f1
          have ok2 : okBufferable (lookupJS fs "init") = true := by
            by_contra h
            simp [h, validate.error] at f2
          have ok3 : okComparable (lookupJS fs "req") = true := by
            by_contra h
            simp [h, validate.error] at f3
          have hcc : conformedComparable (lookupJS fs "req") = lookupJS fs "req" :=
            conformedComparable_fnFree (fnFree_lookup hff "req")
          have hresIdem := resTCP_idem (lookupJS fs "res") (["options"] ++ ["res"])
            (fnFree_lookup hff "res") f4
          rw [hcc] at hX2 hC2 ⊢
          generalize hPV : lookupJS fs "_pinnedTo" = PV at *
          generalize hIV : lookupJS fs "init" = IV at *
          generalize hRQ : lookupJS fs "req" = RQ at *
          generalize hRP : schema.resTCP (lookupJS fs "res") (["options"] ++ ["res"])
            = Rp at *
          have hresIdem2 : schema.resTCP Rp.1 ["options", "res"] = (Rp.1, []) := hresIdem
          -- core: re-validating the conformed object reproduces it exactly
          have hO' : validate.obj schema.mockFields
              (.objV ((if lib.isUndefined PV then [] else [("_pinnedTo", PV)]) ++
                ((if lib.isUndefined IV then [] else [("init", IV)]) ++
                  ((if lib.isUndefined RQ then [] else [("req", RQ)]) ++
                    (if lib.isUndefined Rp.1 then [] else [("res", Rp.1)])))))
              ["options"] =
              (.objV ((if lib.isUndefined PV then [] else [("_pinnedTo", PV)]) ++
                ((if lib.isUndefined IV then [] else [("init", IV)]) ++
                  ((if lib.isUndefined RQ then [] else [("req", RQ)]) ++
                    (if lib.isUndefined Rp.1 then [] else [("res", Rp.1)])))), []) := by
            rw [mockFields_eval]
            by_cases h1 : lib.isUndefined PV = true <;>
              by_cases h2 : lib.isUndefined IV = true <;>
              by_cases h3 : lib.isUndefined RQ = true <;>
              by_cases h4 : lib.isUndefined Rp.1 = true <;>
              simp [h1, h2, h3, h4, lookupJS, List.find?, ok1, ok2, ok3, hcc, hresIdem,
                hresIdem2, okPinned_undef, okBufferable_undef, okComparable_undef,
                isUndefined_undef, conformedComparable_undefv, resTCP_undefv]
          rw [hred, hstage1, hO']
          simp only [List.isEmpty_nil, if_true]
          rw [hstage2, isEmpty_true_of_eq hX2]
          simp only [if_true]
          rw [hstage3, exclusive_conformed, isEmpty_true_of_eq hC2]
          simp only [if_true, connectionPinned_conformed]

/-- C9's original statement is refuted on a declaration with a callable
predicate: the first validation accepts it (no errors) and conforms it by
wrapping the callable, but re-validating the conformed value wraps the
callable a second time, so the conformed value is not a fixed point. -/
theorem C9_counterexample :
    (schema.mockSchema (.objV [("req", .fnConst (.boolV true))]) ["options"]).2 = [] ∧
    (schema.mockSchema
        ((schema.mockSchema (.objV [("req", .fnConst (.boolV true))]) ["options"]).1)
        ["options"]).1
      ≠ (schema.mockSchema (.objV [("req", .fnConst (.boolV true))]) ["options"]).1 := by
  refine ⟨rfl, ?_⟩
  have h1 : (schema.mockSchema (.objV [("req", .fnConst (.boolV true))]) ["options"]).1
      = .objV [("req", .fnWrapped (.fnConst (.boolV true)) .lsBoolean)] := rfl
  have h2 : (schema.mockSchema
        (.objV [("req", .fnWrapped (.fnConst (.boolV true)) .lsBoolean)]) ["options"]).1
      = .objV [("req",
          .fnWrapped (.fnWrapped (.fnConst (.boolV true)) .lsBoolean) .lsBoolean)] := rfl
  rw [h1, h2]
  intro h
  simp at h

/-- Witness: a concrete callable-free accepted declaration on which the
idempotence theorem applies. -/
theorem C9_witness :
    FnFree (JSVal.objV [("init", .strV "a")]) ∧
    (schema.mockSchema (.objV [("init", .strV "a")]) ["options"]).2 = [] ∧
    schema.mockSchema
        ((schema.mockSchema (.objV [("init", .strV "a")]) ["options"]).1) ["options"]
      = ((schema.mockSchema (.objV [("init", .strV "a")]) ["options"]).1, []) := by
  have hff : FnFree (JSVal.objV [("init", .strV "a")]) := by
    refine .objV _ ?_
    intro kv hkv
    simp at hkv
    rw [hkv]
    exact .strV "a"
  exact ⟨hff, rfl, C9_validation_idempotent _ hff rfl⟩

/-- A concrete pinning head for witnesses. -/
def wHeadTCP : tcp.Mock :=
  { isInitM := false, req := .undef, res := .undef, isHeadMock := true, recIdx := 0,
    done := false }

/-- A concrete pinning tail for witnesses, sharing record 0 with the head. -/
def wTailTCP : tcp.Mock :=
  { isInitM := false, req := .undef, res := .undef, isHeadMock := false, recIdx := 0,
    done := false }

/-- A concrete initial TCP state for witnesses. -/
def wStTCP : tcp.State := { mocks := [wHeadTCP, wTailTCP], records := [none], conns := [] }

/-- C4 witness: a head/tail pinning group, one connection, one chunk. -/
theorem C4_witness :
    tcp.TailInv (tcp.run 1 wStTCP [.connOpen 0, .dataArrival 0 [7]]) ∧
    (∀ (records : List (Option Nat)) (m : tcp.Mock) (bytes : List Nat) (cid : Nat),
      m.isHeadMock = false → tcp.isMatch 1 records m bytes cid = true →
      records[m.recIdx]? = some (some cid)) ∧
    (∀ (st : tcp.State) (ev : tcp.Event) (r : Nat) (o o' : Option Nat),
      st.records[r]? = some o → (tcp.step 1 st ev).records[r]? = some o' → o' ≠ o →
      ∃ (k : Nat) (hm : tcp.Mock), st.mocks[k]? = some hm ∧ hm.isHeadMock = true ∧
        hm.recIdx = r ∧ hm.done = false ∧
        (tcp.step 1 st ev).mocks[k]? = some { hm with done := true }) :=
  C4_tcp_tail_requires_head 1 wStTCP [.connOpen 0, .dataArrival 0 [7]]
    (by
      intro j m hj hi
      match j, hj with
      | 0, hj =>
        have hm : wHeadTCP = m := by simpa [wStTCP] using hj
        rw [← hm]
        rfl
      | 1, hj =>
        have hm : wTailTCP = m := by simpa [wStTCP] using hj
        rw [← hm] at hi
        exact absurd hi (by simp [wTailTCP])
      | j + 2, hj => simp [wStTCP] at hj)
    (by
      intro r o hr
      match r, hr with
      | 0, hr =>
        have hm : (none : Option Nat) = o := by simpa [wStTCP] using hr
        exact hm.symm
      | r + 1, hr => simp [wStTCP] at hr)
    (by
      intro j m hj
      match j, hj with
      | 0, hj =>
        have hm : wHeadTCP = m := by simpa [wStTCP] using hj
        rw [← hm]
        rfl
      | 1, hj =>
        have hm : wTailTCP = m := by simpa [wStTCP] using hj
        rw [← hm]
        rfl
      | j + 2, hj => simp [wStTCP] at hj)

end Wirepig
